import Mathlib

/-!
gop: layered configuration store and graceful-restart coordinator.

A shallow embedding of `config.go` and `goagain_linux.go` of `jbert/gop`,
and the properties of the layered lookup, the typed accessors, the section
enumeration and the restart coordinator proved over it.

Modelling conventions.

* A Go `map[string]V` is `GoMap V`: the nil map, or an allocated table with
  unique keys (`AList`). Reading a nil map finds nothing; assigning into a nil
  map is a run-time panic. Iteration order of a Go map is unspecified; the
  model iterates in the order of the table, and no theorem depends on it.
* Go maps are references. The embedding is by value: a write through a section
  obtained from `cfg.overrides[s]` is stored back at `s`. Distinct map slots
  are assumed not to alias one another.
* A Go panic is the `error` branch of `Except Panic`.
* Functions of the Go standard library and of third-party packages that the
  source calls (`strconv`, `time.ParseDuration`, `goagain`, `net`) are
  parameters of the definitions that call them. `strings.Split` and
  `strings.TrimSpace` are defined on the characters of a string; a Go string
  is taken to be valid UTF-8.
-/

namespace Gop

/-! ## Go values -/

/-- A Go run-time panic with its message. -/
structure Panic where
  msg : String
deriving DecidableEq, Repr

deriving instance DecidableEq for Except

/-- A Go map with string keys: the nil map, or an allocated table. -/
inductive GoMap (V : Type) where
  | nil : GoMap V
  | table (entries : AList (fun _ : String => V)) : GoMap V

namespace GoMap

variable {V : Type}

/-- The result of `make(map[string]V)`: an allocated, empty table. -/
def make : GoMap V := table ∅

/-- The comma-ok read `v, ok := m[k]`; `none` stands for `ok == false`.
Reading the nil map finds nothing. -/
def lookup (m : GoMap V) (k : String) : Option V :=
  match m with
  | nil => none
  | table es => es.lookup k

/-- The assignment `m[k] = v`. Assigning into the nil map panics. -/
def assign (m : GoMap V) (k : String) (v : V) : Except Panic (GoMap V) :=
  match m with
  | nil => .error ⟨"assignment to entry in nil map"⟩
  | table es => .ok (table (es.insert k v))

/-- The keys visited by `for k := range m`, each once. -/
def keys (m : GoMap V) : List String :=
  match m with
  | nil => []
  | table es => es.keys

end GoMap

/-! ## config.go -/

/-- Embeds `type ConfigMap map[string]map[string]string`. -/
abbrev ConfigMap := GoMap (GoMap String)

/-- Embeds `type Config struct { source ConfigMap; overrides ConfigMap }`. -/
structure Config where
  source : ConfigMap
  overrides : ConfigMap

/-- Embeds `func (cfgMap *ConfigMap) Get(sName, k string, def string) (string, bool)`. -/
def ConfigMap.Get (cfgMap : ConfigMap) (sName k dflt : String) : String × Bool :=
  match cfgMap.lookup sName with
  | none => (dflt, false)
  | some s =>
    match s.lookup k with
    | none => (dflt, false)
    | some v => (v, true)

/-- Embeds `func (cfgMap *ConfigMap) Add(sName, k, v string)`. The inner assignment
goes through the section stored at `sName`, and is stored back there. -/
def ConfigMap.Add (cfgMap : ConfigMap) (sName k v : String) : Except Panic ConfigMap := do
  let cfgMap1 ← match cfgMap.lookup sName with
    | none => cfgMap.assign sName GoMap.make
    | some _ => pure cfgMap
  let sect ← ((cfgMap1.lookup sName).getD GoMap.nil).assign k v
  cfgMap1.assign sName sect

/-- Embeds `func (cfgMap *ConfigMap) Sections() []string`. -/
def ConfigMap.Sections (cfgMap : ConfigMap) : List String :=
  cfgMap.keys.foldl (fun sections k => sections ++ [k]) []

/-- Embeds `func (cfgMap *ConfigMap) SectionKeys(sName string) []string`. -/
def ConfigMap.SectionKeys (cfgMap : ConfigMap) (sName : String) : List String :=
  match cfgMap.lookup sName with
  | none => []
  | some sect => sect.keys.foldl (fun keys k => keys ++ [k]) []

/-- The local `map[string]bool` used as a set by `Sections` and `SectionKeys`;
it is made before use, so assignments into it cannot panic. -/
abbrev NameSet := AList (fun _ : String => Bool)

/-- The loop `for _, name := range names { set[name] = true }`. -/
def markAll (set : NameSet) (names : List String) : NameSet :=
  names.foldl (fun m name => m.insert name true) set

/-- The loop `for k, _ := range set { out = append(out, k) }`. -/
def collectKeys (set : NameSet) : List String :=
  set.keys.foldl (fun out k => out ++ [k]) []

/-- Embeds `func (cfg *Config) Sections() []string`. -/
def Config.Sections (cfg : Config) : List String :=
  let sectionMap : NameSet := ∅
  let sourceSections := cfg.source.Sections
  let sectionMap := markAll sectionMap sourceSections
  let sectionMap := markAll sectionMap cfg.overrides.keys
  collectKeys sectionMap

/-- Embeds `func (cfg *Config) SectionKeys(sName string) []string`. -/
def Config.SectionKeys (cfg : Config) (sName : String) : List String :=
  let keyMap : NameSet := ∅
  let sourceKeys := cfg.source.SectionKeys sName
  let keyMap := markAll keyMap sourceKeys
  let keyMap :=
    match cfg.overrides.lookup sName with
    | some overrideSection => markAll keyMap overrideSection.keys
    | none => keyMap
  collectKeys keyMap

/-- Embeds `func (cfg *Config) Override(sectionName, key, val string)`. The two
assignments that can panic are `cfg.overrides[sectionName] = make(...)` (nil
override map) and `section[key] = val` (nil section). The last step stores the
written section back at `sectionName`: in Go `section` is a reference to the
map held there. -/
def Config.Override (cfg : Config) (sectionName key val : String) : Except Panic Config := do
  let (overrides, sect) ← match cfg.overrides.lookup sectionName with
    | some sect => pure (cfg.overrides, sect)
    | none => do
      let overrides ← cfg.overrides.assign sectionName GoMap.make
      pure (overrides, (overrides.lookup sectionName).getD GoMap.nil)
  let sect ← sect.assign key val
  let overrides ← overrides.assign sectionName sect
  pure { cfg with overrides := overrides }

/-- Embeds `func (cfg *Config) Get(sectionName, key string, def string) (string, bool)`. -/
def Config.Get (cfg : Config) (sectionName key dflt : String) : String × Bool :=
  match cfg.overrides.lookup sectionName with
  | some sect =>
    match sect.lookup key with
    | some val => (val, true)
    | none => cfg.source.Get sectionName key dflt
  | none => cfg.source.Get sectionName key dflt

/-- The body of the inner loop of `AsMap`,
`configMap[section][key], _ = cfg.Get(section, key, "")`. The assignment goes
through the map stored at `configMap[section]` and is stored back there. -/
def Config.storeKey (cfg : Config) (sect : String) (configMap : ConfigMap) (key : String) :
    Except Panic ConfigMap := do
  let v := (cfg.Get sect key "").1
  let inner ← ((configMap.lookup sect).getD GoMap.nil).assign key v
  configMap.assign sect inner

/-- The inner loop of `AsMap`, `for _, key := range keys { ... }`. -/
def Config.fillSection (cfg : Config) (sect : String) (configMap : ConfigMap)
    (keys : List String) : Except Panic ConfigMap :=
  keys.foldlM (cfg.storeKey sect) configMap

/-- The body of the outer loop of `AsMap`: a fresh map is stored at
`configMap[section]` and filled with the keys of `SectionKeys(section)`. -/
def Config.dumpSection (cfg : Config) (configMap : ConfigMap) (sect : String) :
    Except Panic ConfigMap := do
  let configMap ← configMap.assign sect GoMap.make
  let keys := cfg.SectionKeys sect
  cfg.fillSection sect configMap keys

/-- Embeds `func (cfg *Config) AsMap() map[string]map[string]string`. -/
def Config.AsMap (cfg : Config) : Except Panic ConfigMap :=
  let configMap : ConfigMap := GoMap.make
  let sections := cfg.Sections
  sections.foldlM cfg.dumpSection configMap

/-- What a layer holds at `(s, k)`: the value stored under key `k` of section
`s`, if the layer has that section and the section has that key. -/
def ConfigMap.holds (m : ConfigMap) (s k : String) : Option String :=
  (m.lookup s).bind (fun sect => sect.lookup k)

/-- The layered lookup in the words of the specification: the override
layer's value if it holds one, else the source layer's, else the default. -/
def layeredLookup (cfg : Config) (s k d : String) : String × Bool :=
  match cfg.overrides.holds s k with
  | some v => (v, true)
  | none =>
    match cfg.source.holds s k with
    | some w => (w, true)
    | none => (d, false)

/-! ### Typed accessors

`strconv.Atoi`, `strconv.ParseInt`, `strconv.ParseBool`, `strconv.ParseFloat`
and `time.ParseDuration` belong to the Go standard library. Each accessor
takes the parser it calls as a parameter; a parser returns the parsed value,
or the text of its error. The float types are parameters too. -/

/-- Embeds `fmt.Sprintf("Non-numeric config key %s: %s [%s]", k, v, err)`. -/
def nonNumericMsg (k v err : String) : String :=
  "Non-numeric config key " ++ k ++ ": " ++ v ++ " [" ++ err ++ "]"

/-- Embeds `fmt.Sprintf("Bad boolean config key %s: %s", k, v)`. -/
def badBooleanMsg (k v : String) : String :=
  "Bad boolean config key " ++ k ++ ": " ++ v

/-- Embeds `fmt.Sprintf("Non-numeric float32 config key %s: %s [%s]", k, v, err)`. -/
def nonNumericFloat32Msg (k v err : String) : String :=
  "Non-numeric float32 config key " ++ k ++ ": " ++ v ++ " [" ++ err ++ "]"

/-- Embeds `func (cfg *Config) GetInt(sName, k string, def int) (int, bool)`. -/
def Config.GetInt (atoi : String → Except String Int) (cfg : Config) (sName k : String)
    (dflt : Int) : Except Panic (Int × Bool) :=
  match cfg.Get sName k "" with
  | (_, false) => .ok (dflt, false)
  | (v, true) =>
    match atoi v with
    | .ok r => .ok (r, true)
    | .error err => .error ⟨nonNumericMsg k v err⟩

/-- Embeds `func (cfg *Config) GetInt64(sName, k string, def int64) (int64, bool)`;
`parseInt v base bitSize` stands for `strconv.ParseInt(v, base, bitSize)`. -/
def Config.GetInt64 (parseInt : String → Nat → Nat → Except String Int) (cfg : Config)
    (sName k : String) (dflt : Int) : Except Panic (Int × Bool) :=
  match cfg.Get sName k "" with
  | (_, false) => .ok (dflt, false)
  | (v, true) =>
    match parseInt v 10 64 with
    | .ok r => .ok (r, true)
    | .error err => .error ⟨nonNumericMsg k v err⟩

/-- Embeds `func (cfg *Config) GetBool(sName, k string, def bool) (bool, bool)`. -/
def Config.GetBool (parseBool : String → Except String Bool) (cfg : Config) (sName k : String)
    (dflt : Bool) : Except Panic (Bool × Bool) :=
  match cfg.Get sName k "" with
  | (_, false) => .ok (dflt, false)
  | (v, true) =>
    match parseBool v with
    | .ok r => .ok (r, true)
    | .error _ => .error ⟨badBooleanMsg k v⟩

/-- Embeds `func (cfg *Config) GetFloat32(sName, k string, def float32) (float32, bool)`;
`parseFloat v bitSize` stands for `strconv.ParseFloat(v, bitSize)` and
`toFloat32` for the conversion `float32(r)`. -/
def Config.GetFloat32 {F64 F32 : Type} (parseFloat : String → Nat → Except String F64)
    (toFloat32 : F64 → F32) (cfg : Config) (sName k : String) (dflt : F32) :
    Except Panic (F32 × Bool) :=
  match cfg.Get sName k "" with
  | (_, false) => .ok (dflt, false)
  | (v, true) =>
    match parseFloat v 32 with
    | .ok r => .ok (toFloat32 r, true)
    | .error err => .error ⟨nonNumericFloat32Msg k v err⟩

/-- Embeds `unicode.IsSpace`: the code points with the Unicode White_Space property. -/
def unicode.IsSpace (c : Char) : Bool :=
  let n := c.toNat
  (0x09 ≤ n && n ≤ 0x0d) || n == 0x20 || n == 0x85 || n == 0xa0 || n == 0x1680 ||
  (0x2000 ≤ n && n ≤ 0x200a) || n == 0x2028 || n == 0x2029 || n == 0x202f ||
  n == 0x205f || n == 0x3000

/-- The pieces of a character list between the occurrences of `sep`. -/
def splitChars (sep : Char) : List Char → List (List Char)
  | [] => [[]]
  | c :: cs =>
    if c = sep then [] :: splitChars sep cs
    else
      match splitChars sep cs with
      | [] => [[c]]
      | p :: ps => (c :: p) :: ps

/-- Embeds `strings.Split(s, sep)` for a separator of one character: all substrings
of `s` between the separators, in order. -/
def strings.Split (s : String) (sep : Char) : List String :=
  (splitChars sep s.data).map String.mk

/-- Embeds `strings.TrimSpace(s)`: `s` without its leading and trailing white space. -/
def strings.TrimSpace (s : String) : String :=
  String.mk ((s.data.dropWhile unicode.IsSpace).rdropWhile unicode.IsSpace)

/-- The loop `for i := 0; i < len(v); i++ { v[i] = strings.TrimSpace(v[i]) }`. -/
def trimEach (v : List String) : List String :=
  (List.range v.length).foldl (fun v i => v.set i (strings.TrimSpace (v.getD i ""))) v

/-- Embeds `func (cfg *Config) GetList(sName, k string, def []string) ([]string, bool)`. -/
def Config.GetList (cfg : Config) (sName k : String) (dflt : List String) :
    Except Panic (List String × Bool) :=
  match cfg.Get sName k "" with
  | (_, false) => .ok (dflt, false)
  | (vStr, true) =>
    let v := strings.Split vStr ','
    let v := trimEach v
    .ok (v, true)

/-- Embeds `func (cfg *Config) GetDuration(sName, k string, def time.Duration) (time.Duration, bool)`;
a `time.Duration` is a count of nanoseconds. -/
def Config.GetDuration (parseDuration : String → Except String Int) (cfg : Config)
    (sName k : String) (dflt : Int) : Except Panic (Int × Bool) :=
  match cfg.Get sName k "" with
  | (_, false) => .ok (dflt, false)
  | (vStr, true) =>
    match parseDuration vStr with
    | .error _ => .ok (dflt, false)
    | .ok v => .ok (v, true)

/-- An accessor call aborted execution. -/
def aborted {α : Type} (r : Except Panic α) : Prop := ∃ p, r = .error p

/-- A parser rejected its input. -/
def rejects {α : Type} (parse : String → Except String α) (v : String) : Prop :=
  ∃ e, parse v = .error e

/-- The string `x` is the string `piece` with its leading and trailing white
space removed: `piece` is `x` between two runs of white space, and `x` neither
starts nor ends with white space. -/
def IsTrimOf (piece x : String) : Prop :=
  ∃ l r : List Char, piece.data = l ++ x.data ++ r ∧
    (∀ c ∈ l, unicode.IsSpace c = true) ∧ (∀ c ∈ r, unicode.IsSpace c = true) ∧
    (∀ c, x.data.head? = some c → unicode.IsSpace c = false) ∧
    (∀ c, x.data.getLast? = some c → unicode.IsSpace c = false)

/-- The contract of a fail-fast typed accessor, for the result `found` of the
layered lookup, the accessor's parser, the caller's default and the result `r`
of the accessor: `r` is an abort exactly when a string was found and the
parser rejects it; when nothing was found `r` is the default, not found; when
the found string parses `r` is the parsed value, found. -/
def FailFast {α : Type} (found : String × Bool) (parse : String → Except String α) (dflt : α)
    (r : Except Panic (α × Bool)) : Prop :=
  (aborted r ↔ found.2 = true ∧ rejects parse found.1) ∧
  (found.2 = false → r = .ok (dflt, false)) ∧
  (∀ x, found.2 = true → parse found.1 = .ok x → r = .ok (x, true))

/-! ## goagain_linux.go

The coordinator calls `goagain.GetEnvs`, `net.Listen`, `goagain.KillParent`,
`goagain.AwaitSignals`, `time.After` and `time.Tick`, starts `a.Serve` on its
own goroutine, and reads `a.currentReqs`. What those calls return is given by
a `World`; the calls made are recorded, in order, as a trace of `Action`s.
Logging calls (`a.Info`, `a.Debug`, `a.Error`) do not affect control flow and
are not recorded. `a.Fatalln` logs and exits the process. -/

/-- What the environment answers to the coordinator. `L` is the type of
`net.Listener` values and `E` the type of non-nil `error` values; `none`
stands for a nil error. -/
structure World (L E : Type) where
  /-- The result `(l, ppid, err)` of `goagain.GetEnvs()`. -/
  getEnvs : L × Int × Option E
  /-- The result `(l, err)` of `net.Listen(listenNet, listenAddr)`. -/
  listen : String → String → L × Option E
  /-- The result of `goagain.KillParent(ppid)`. -/
  killParent : Int → Option E
  /-- The result of `goagain.AwaitSignals(l)`. -/
  awaitSignals : L → Option E
  /-- The value of `a.currentReqs` read when the `j`-th tick is received. -/
  currentReqs : Nat → Nat
  /-- Which case `select` takes when a tick and the timeout are ready at the
  same instant: `true` for the tick. -/
  tickFirstOnTie : Bool

/-- The calls the coordinator makes to its environment. -/
inductive Action (L : Type) where
  | listen (listenNet listenAddr : String)
  | killParent (ppid : Int)
  | serve (l : L)
  | awaitSignals (l : L)
  | timeAfter (d : Int)
  | timeTick (d : Int)
deriving DecidableEq, Repr

/-- An event received by the `select` of the drain loop: the timeout channel
fired, or the `j`-th tick (`j ≥ 1`) was delivered. -/
inductive DrainEvent where
  | timeout
  | tick (j : Nat)
deriving DecidableEq, Repr

/-- How the drain loop was left: at tick `j` with no pending request, or by
the timeout. -/
inductive DrainExit where
  | idle (j : Nat)
  | timedOut
deriving DecidableEq, Repr

/-- How `goAgainListenAndServe` ends. -/
inductive Outcome (E : Type) where
  /-- The process exited in `a.Fatalln(err)`. -/
  | fatal (err : E)
  /-- The call to `a.Cfg.GetInt` panicked. -/
  | panicked (p : Panic)
  /-- The drain loop was left and the function returned. -/
  | drained (exit : DrainExit)
  /-- The drain loop never receives an event that ends it. -/
  | blocked
deriving DecidableEq, Repr

/-- Conversion of an integer to `int64`, wrapping around. -/
def wrapInt64 (x : Int) : Int := (x + 2 ^ 63) % 2 ^ 64 - 2 ^ 63

/-- The events the two channels deliver to the loop, in the order of their
times, up to the timeout. Times are nanoseconds from the moment the channels
are made. `time.After(timeoutNs)` fires once, at `timeoutNs` (at once when
`timeoutNs ≤ 0`). `time.Tick(tickNs)` delivers tick `j` at `j * tickNs`, and
is the nil channel, never ready, when `tickNs ≤ 0`. A tick that falls on the
very instant of the timeout is received before it or not at all, as
`tickFirstOnTie` says. -/
def drainSchedule (timeoutNs tickNs : Int) (tickFirstOnTie : Bool) : List DrainEvent :=
  if tickNs ≤ 0 then [DrainEvent.timeout]
  else
    let before := ((timeoutNs - 1) / tickNs).toNat
    let onTime :=
      if tickFirstOnTie && decide (0 < timeoutNs) && decide (timeoutNs % tickNs = 0) then
        [DrainEvent.tick (timeoutNs / tickNs).toNat]
      else []
    (List.range' 1 before).map DrainEvent.tick ++ onTime ++ [DrainEvent.timeout]

/-- The instant at which an event is delivered. -/
def DrainEvent.time (timeoutNs tickNs : Int) : DrainEvent → Int
  | .timeout => max timeoutNs 0
  | .tick j => j * tickNs

/-- The loop `for waiting { select { ... } }` of `goAgainListenAndServe`, run
on the events it receives: the timeout ends it, a tick ends it when
`a.currentReqs == 0` and is otherwise only logged. With no event left the
`select` blocks for ever. -/
def drainLoop (currentReqs : Nat → Nat) : List DrainEvent → Option DrainExit
  | [] => none
  | .timeout :: _ => some DrainExit.timedOut
  | .tick j :: rest =>
    if currentReqs j = 0 then some (DrainExit.idle j) else drainLoop currentReqs rest

/-- The instant at which the loop is left. -/
def DrainExit.time (timeoutNs tickNs : Int) : DrainExit → Int
  | .timedOut => max timeoutNs 0
  | .idle j => j * tickNs

/-- The second half of `goAgainListenAndServe`, from the log line "Signal
received - starting graceful restart" on: the two tunables are read, the two
channels are made and the drain loop runs. -/
def gracefulDrain {L E : Type} (atoi : String → Except String Int) (w : World L E)
    (cfg : Config) : List (Action L) × Outcome E :=
  match cfg.GetInt atoi "gop" "graceful_wait_secs" 60 with
  | .error p => ([], Outcome.panicked p)
  | .ok (waitSecs, _) =>
    let timeoutNs := wrapInt64 (1000000000 * wrapInt64 waitSecs)
    match cfg.GetInt atoi "gop" "graceful_poll_msecs" 500 with
    | .error p => ([Action.timeAfter timeoutNs], Outcome.panicked p)
    | .ok (tickMillis, _) =>
      let tickNs := wrapInt64 (1000000 * wrapInt64 tickMillis)
      let calls := [Action.timeAfter timeoutNs, Action.timeTick tickNs]
      match drainLoop w.currentReqs (drainSchedule timeoutNs tickNs w.tickFirstOnTie) with
      | some exit => (calls, Outcome.drained exit)
      | none => (calls, Outcome.blocked)

/-- The first part of `goAgainListenAndServe`, up to the start of `a.Serve`:
the environment is inspected; on an error a listener is bound on
`(listenNet, listenAddr)`, otherwise the inherited listener is kept and the
parent is killed. The result is the listener to serve on, or the error handed
to `a.Fatalln`. -/
def startListener {L E : Type} (w : World L E) (listenNet listenAddr : String) :
    List (Action L) × Except E L :=
  let (l, ppid, err) := w.getEnvs
  match err with
  | some _ =>
    match w.listen listenNet listenAddr with
    | (_, some err) => ([Action.listen listenNet listenAddr], .error err)
    | (l, none) => ([Action.listen listenNet listenAddr], .ok l)
  | none =>
    match w.killParent ppid with
    | some err => ([Action.killParent ppid], .error err)
    | none => ([Action.killParent ppid], .ok l)

/-- Embeds `func (a *App) goAgainListenAndServe(listenNet, listenAddr string)`. -/
def goAgainListenAndServe {L E : Type} (atoi : String → Except String Int) (w : World L E)
    (cfg : Config) (listenNet listenAddr : String) : List (Action L) × Outcome E :=
  match startListener w listenNet listenAddr with
  | (calls, .error err) => (calls, Outcome.fatal err)
  | (calls, .ok l) =>
    let calls := calls ++ [Action.serve l, Action.awaitSignals l]
    match w.awaitSignals l with
    | some err => (calls, Outcome.fatal err)
    | none =>
      let (drainCalls, outcome) := gracefulDrain atoi w cfg
      (calls ++ drainCalls, outcome)

/-- The call is one made in the drain phase: `time.After` or `time.Tick`. -/
def Action.isDrainCall {L : Type} : Action L → Bool
  | .timeAfter _ => true
  | .timeTick _ => true
  | _ => false

/-- The coordinator reached its drain phase: it made the timeout channel. -/
def reachedDrain {L : Type} (calls : List (Action L)) : Bool :=
  calls.any Action.isDrainCall

/-- The event ends the drain loop: the timeout, or a tick at which the
in-flight counter reads zero. -/
def endsLoop (currentReqs : Nat → Nat) : DrainEvent → Bool
  | .timeout => true
  | .tick j => currentReqs j == 0

/-- The way the loop is left at an event that ends it. -/
def DrainEvent.exit : DrainEvent → DrainExit
  | .timeout => DrainExit.timedOut
  | .tick j => DrainExit.idle j

/-- The duration handed to `time.After` in `goAgainListenAndServe`:
`time.Second * time.Duration(waitSecs)`, in int64 arithmetic. -/
def drainTimeoutNs (waitSecs : Int) : Int := wrapInt64 (1000000000 * wrapInt64 waitSecs)

/-- The duration handed to `time.Tick` in `goAgainListenAndServe`:
`time.Millisecond * time.Duration(tickMillis)`, in int64 arithmetic. -/
def drainTickNs (tickMillis : Int) : Int := wrapInt64 (1000000 * wrapInt64 tickMillis)

/-! ## Sample inputs

Concrete parsers and configurations on which the definitions above are run. -/

/-- The value of a non-empty string of decimal digits. -/
def decimalValue (cs : List Char) : Option Nat :=
  if cs = [] then none
  else cs.foldl (fun acc c => acc.bind (fun n =>
    if c.isDigit then some (10 * n + (c.toNat - 48)) else none)) (some 0)

/-- A decimal parser in the manner of `strconv.Atoi`: an optional sign and
decimal digits, within the range of a 64-bit `int`. -/
def sampleAtoi (s : String) : Except String Int :=
  let signed : Option Int :=
    match s.data with
    | '-' :: ds => (decimalValue ds).map (fun n => - (n : Int))
    | '+' :: ds => (decimalValue ds).map (fun n => (n : Int))
    | ds => (decimalValue ds).map (fun n => (n : Int))
  match signed with
  | none => .error "invalid syntax"
  | some n =>
    if - 2 ^ 63 ≤ n ∧ n < 2 ^ 63 then .ok n else .error "value out of range"

/-- The parser `sampleAtoi`, with the signature of `strconv.ParseInt`. -/
def sampleParseInt (s : String) (_base _bitSize : Nat) : Except String Int := sampleAtoi s

/-- The strings `strconv.ParseBool` accepts. -/
def sampleParseBool (s : String) : Except String Bool :=
  if s ∈ ["1", "t", "T", "TRUE", "true", "True"] then .ok true
  else if s ∈ ["0", "f", "F", "FALSE", "false", "False"] then .ok false
  else .error "invalid syntax"

/-- A decimal fraction `mantissa / 10 ^ exponent`. -/
structure Decimal where
  mantissa : Nat
  exponent : Nat
deriving DecidableEq, Repr

/-- A parser of decimal fractions written `digits.digits`. -/
def sampleParseFloat (s : String) (_bitSize : Nat) : Except String Decimal :=
  match splitChars '.' s.data with
  | [whole, frac] =>
    match decimalValue (whole ++ frac) with
    | some m => if whole = [] ∨ frac = [] then .error "invalid syntax" else .ok ⟨m, frac.length⟩
    | none => .error "invalid syntax"
  | _ => .error "invalid syntax"

/-- A parser of durations written as whole seconds, `digits` then `s`. -/
def sampleParseDuration (s : String) : Except String Int :=
  match s.data.reverse with
  | 's' :: ds =>
    match decimalValue ds.reverse with
    | some n => .ok (1000000000 * (n : Int))
    | none => .error "invalid duration"
  | _ => .error "invalid duration"

/-- A table built from a list of bindings, later bindings first. -/
def GoMap.ofList {V : Type} (l : List (String × V)) : GoMap V :=
  GoMap.table (l.foldl (fun m kv => m.insert kv.1 kv.2) ∅)

/-- The layer has a section named `name`. -/
def ConfigMap.hasSection (m : ConfigMap) (name : String) : Bool :=
  (m.lookup name).isSome

/-- The layer has key `key` in its section `s`. -/
def ConfigMap.hasKey (m : ConfigMap) (s key : String) : Bool :=
  match m.lookup s with
  | some sect => (sect.lookup key).isSome
  | none => false

/-- A configuration whose source layer has `gop.graceful_wait_secs = 30` and
`web.port = 80`, and whose override layer has section `web` with only the key
`host`. -/
def sampleConfig : Config :=
  { source := GoMap.ofList [("gop", GoMap.ofList [("graceful_wait_secs", "30")]),
                            ("web", GoMap.ofList [("port", "80")])]
    overrides := GoMap.ofList [("web", GoMap.ofList [("host", "example.org")])] }

/-- The configuration `sampleConfig` after `Override("web", "port", "8080")`. -/
def sampleOverridden : Config :=
  { source := sampleConfig.source
    overrides := GoMap.ofList
      [("web", GoMap.ofList [("host", "example.org"), ("port", "8080")])] }

/-- A configuration with a list value `gop.log_granulars = "a,  b ,c"` in the
source layer and an empty value `gop.tags = ""` in the override layer. -/
def sampleListConfig : Config :=
  { source := GoMap.ofList [("gop", GoMap.ofList [("log_granulars", "a,  b ,c")])]
    overrides := GoMap.ofList [("gop", GoMap.ofList [("tags", "")])] }

/-- A standalone start (no handoff token in the environment) on which the
restart signal arrives but relaunching the successor fails. The listeners are
named by strings. -/
def relaunchFails : World String String :=
  { getEnvs := ("", 0, some "GOAGAIN_FD is not set")
    listen := fun _ addr => ("listener on " ++ addr, none)
    killParent := fun _ => none
    awaitSignals := fun _ => some "fork/exec failed"
    currentReqs := fun _ => 0
    tickFirstOnTie := true }

/-- An adopted start: the environment holds the listener `inherited` and the
parent pid 4711; the restart later succeeds, and the in-flight counter reads
2, 1, 0, 0, ... at the ticks. -/
def adopted : World String String :=
  { getEnvs := ("inherited", 4711, none)
    listen := fun _ addr => ("listener on " ++ addr, none)
    killParent := fun _ => none
    awaitSignals := fun _ => none
    currentReqs := fun j => 3 - j
    tickFirstOnTie := true }

/-- The map `inner` is the dump of section `s` of `cfg`: an allocated map
whose keys are the names in `SectionKeys(s)`, each bound to the value `Get`
finds for it. -/
def IsSectionDump (cfg : Config) (s : String) (inner : GoMap String) : Prop :=
  ∃ es, inner = GoMap.table es ∧
    ∀ k, es.lookup k = if k ∈ cfg.SectionKeys s then some (cfg.Get s k "").1 else none

/-- A configuration in which the override layer shadows `web.port`, the
source layer has a section `spare` with no keys, and the override layer has a
section `ghost` that is the nil map. -/
def sampleDumpConfig : Config :=
  { source := GoMap.ofList [("web", GoMap.ofList [("port", "80"), ("host", "example.org")]),
                            ("spare", GoMap.make)]
    overrides := GoMap.ofList [("web", GoMap.ofList [("port", "8080")]),
                               ("ghost", GoMap.nil)] }

/-! ## Maps -/

namespace GoMap

variable {V : Type}

theorem lookup_assign_self {m m' : GoMap V} {k : String} {v : V}
    (h : m.assign k v = .ok m') : m'.lookup k = some v := by
  cases m with
  | nil => simp [assign] at h
  | table es =>
    simp only [assign, Except.ok.injEq] at h
    subst h
    simp [lookup]

theorem lookup_assign_ne {m m' : GoMap V} {k k' : String} {v : V}
    (h : m.assign k v = .ok m') (hk : k' ≠ k) : m'.lookup k' = m.lookup k' := by
  cases m with
  | nil => simp [assign] at h
  | table es =>
    simp only [assign, Except.ok.injEq] at h
    subst h
    simp [lookup, AList.lookup_insert_ne hk]

theorem assign_eq_error_iff {m : GoMap V} {k : String} {v : V} :
    (∃ p, m.assign k v = .error p) ↔ m = nil := by
  cases m <;> simp [assign]

theorem mem_keys_iff {m : GoMap V} {k : String} : k ∈ m.keys ↔ (m.lookup k).isSome = true := by
  cases m with
  | nil => simp [keys, lookup]
  | table es => simp [keys, lookup, AList.lookup_isSome, AList.mem_keys]

theorem keys_nodup (m : GoMap V) : m.keys.Nodup := by
  cases m with
  | nil => simp [keys]
  | table es => exact es.keys_nodup

end GoMap

theorem foldl_append_singleton {α : Type} (l init : List α) :
    l.foldl (fun out k => out ++ [k]) init = init ++ l := by
  induction l generalizing init with
  | nil => simp
  | cons a l ih => simp [ih]

theorem mem_markAll (set : NameSet) (names : List String) (name : String) :
    name ∈ (markAll set names).keys ↔ name ∈ set.keys ∨ name ∈ names := by
  induction names generalizing set with
  | nil => simp [markAll]
  | cons a names ih =>
    have h := ih (set.insert a true)
    have hk : name ∈ (AList.insert a true set).keys ↔ name = a ∨ name ∈ set.keys := by
      rw [← AList.mem_keys, ← AList.mem_keys, AList.mem_insert]
    simp only [markAll, List.foldl_cons] at h ⊢
    rw [h, hk, List.mem_cons]
    tauto

theorem collectKeys_eq (set : NameSet) : collectKeys set = set.keys := by
  simp [collectKeys, foldl_append_singleton]

theorem ConfigMap.Sections_eq (m : ConfigMap) : m.Sections = m.keys := by
  simp [ConfigMap.Sections, foldl_append_singleton]

theorem ConfigMap.mem_SectionKeys (m : ConfigMap) (s key : String) :
    key ∈ m.SectionKeys s ↔ m.hasKey s key = true := by
  unfold ConfigMap.SectionKeys ConfigMap.hasKey
  cases h : GoMap.lookup m s with
  | none => simp
  | some sect => simp [foldl_append_singleton, GoMap.mem_keys_iff]

theorem count_of_nodup {l : List String} (hl : l.Nodup) (a : String) (b : Bool)
    (h : a ∈ l ↔ b = true) : l.count a = if b then 1 else 0 := by
  cases b with
  | true => simpa using List.count_eq_one_of_mem hl (h.mpr rfl)
  | false =>
    have : a ∉ l := fun hm => by simpa using h.mp hm
    simpa using List.count_eq_zero_of_not_mem this

/-! ## The layered lookup -/

theorem Config.Get_eq_layeredLookup (cfg : Config) (s k d : String) :
    cfg.Get s k d = layeredLookup cfg s k d := by
  unfold Config.Get layeredLookup ConfigMap.holds ConfigMap.Get
  cases cfg.overrides.lookup s with
  | none =>
    cases cfg.source.lookup s with
    | none => rfl
    | some t => cases h : t.lookup k <;> simp [h]
  | some sect =>
    cases h : sect.lookup k with
    | some v => simp [h]
    | none =>
      cases cfg.source.lookup s with
      | none => simp [h]
      | some t => cases h' : t.lookup k <;> simp [h, h']

/-- C1: `Config.Get` is the layered lookup. It returns `(v, true)` when the
override layer holds `v` at `(s, k)`, whatever the source layer holds;
otherwise `(w, true)` when the source layer holds `w` there (also when the
override layer has section `s` without key `k`); otherwise `(d, false)`. -/
theorem Config.Get_layered (cfg : Config) (s k d : String) :
    cfg.Get s k d = layeredLookup cfg s k d ∧
    (∀ v, cfg.overrides.holds s k = some v → cfg.Get s k d = (v, true)) ∧
    (∀ w, cfg.overrides.holds s k = none → cfg.source.holds s k = some w →
      cfg.Get s k d = (w, true)) ∧
    (cfg.overrides.holds s k = none → cfg.source.holds s k = none →
      cfg.Get s k d = (d, false)) := by
  refine ⟨Config.Get_eq_layeredLookup cfg s k d, ?_, ?_, ?_⟩
  · intro v hv
    simp [Config.Get_eq_layeredLookup, layeredLookup, hv]
  · intro w ho hw
    simp [Config.Get_eq_layeredLookup, layeredLookup, ho, hw]
  · intro ho hw
    simp [Config.Get_eq_layeredLookup, layeredLookup, ho, hw]

/-- C1 at a concrete configuration: the override layer has section `web` but
not the key `port`, the source layer holds `80` there, and `Get` returns it. -/
theorem Config.Get_layered_witness :
    sampleConfig.overrides.hasSection "web" = true ∧
    sampleConfig.overrides.holds "web" "port" = none ∧
    sampleConfig.Get "web" "port" "d" = ("80", true) :=
  ⟨by decide, by decide,
    (Config.Get_layered sampleConfig "web" "port" "d").2.2.1 "80" (by decide) (by decide)⟩

/-! ## Override -/

theorem Config.Override_ok_iff (cfg : Config) (s k v : String) :
    (∃ cfg', cfg.Override s k v = .ok cfg') ↔
      cfg.overrides ≠ GoMap.nil ∧ cfg.overrides.lookup s ≠ some GoMap.nil := by
  unfold Config.Override
  cases ho : cfg.overrides with
  | nil => simp [GoMap.lookup, GoMap.assign, bind, Except.bind]
  | table es =>
    cases hs : es.lookup s with
    | none => simp [GoMap.lookup, hs, GoMap.assign, bind, Except.bind, pure, Except.pure, GoMap.make]
    | some sect =>
      cases sect with
      | nil => simp [GoMap.lookup, hs, GoMap.assign, bind, Except.bind, pure, Except.pure]
      | table ks => simp [GoMap.lookup, hs, GoMap.assign, bind, Except.bind, pure, Except.pure]

/-- What a successful `Override` leaves behind: the source layer as it was,
and an override layer that differs at section `s` only, where the section is
the old one (or a fresh one) with `k` bound to `v`. -/
theorem Config.Override_ok_spec {cfg cfg' : Config} {s k v : String}
    (h : cfg.Override s k v = .ok cfg') :
    cfg'.source = cfg.source ∧
    (∀ s', s' ≠ s → cfg'.overrides.lookup s' = cfg.overrides.lookup s') ∧
    ∃ sect', cfg'.overrides.lookup s = some sect' ∧ sect'.lookup k = some v ∧
      ∀ k', k' ≠ k → sect'.lookup k' = ((cfg.overrides.lookup s).getD GoMap.make).lookup k' := by
  unfold Config.Override at h
  cases ho : cfg.overrides with
  | nil => simp [ho, GoMap.lookup, GoMap.assign, bind, Except.bind] at h
  | table es =>
    rw [ho] at h
    cases hs : es.lookup s with
    | none =>
      simp only [GoMap.lookup, hs, GoMap.assign, bind, Except.bind, pure, Except.pure,
        GoMap.make, AList.lookup_insert, Option.getD_some, Except.ok.injEq] at h
      subst h
      refine ⟨rfl, ?_, ?_⟩
      · intro s' hne
        simp only [ho, GoMap.lookup, AList.lookup_insert_ne hne]
      · refine ⟨GoMap.table (AList.insert k v ∅), ?_, ?_, ?_⟩
        · simp only [GoMap.lookup, AList.lookup_insert]
        · simp only [GoMap.lookup, AList.lookup_insert]
        · intro k' hne
          simp only [ho, GoMap.lookup, hs, Option.getD_none, GoMap.make,
            AList.lookup_insert_ne hne]
    | some sect =>
      cases sect with
      | nil => simp [GoMap.lookup, hs, GoMap.assign, bind, Except.bind, pure, Except.pure] at h
      | table ks =>
        simp only [GoMap.lookup, hs, GoMap.assign, bind, Except.bind, pure, Except.pure,
          Except.ok.injEq] at h
        subst h
        refine ⟨rfl, ?_, ?_⟩
        · intro s' hne
          simp only [ho, GoMap.lookup, AList.lookup_insert_ne hne]
        · refine ⟨GoMap.table (AList.insert k v ks), ?_, ?_, ?_⟩
          · simp only [GoMap.lookup, AList.lookup_insert]
          · simp only [GoMap.lookup, AList.lookup_insert]
          · intro k' hne
            simp only [ho, GoMap.lookup, hs, Option.getD_some, AList.lookup_insert_ne hne]

/-- On a configuration whose override map and override section `s` are
allocated, `Override(s,k,v)` succeeds and `Get(s,k,d)` then returns
`(v, true)`. -/
theorem Config.Get_after_Override_ok {cfg cfg' : Config} {s k v : String} (d : String)
    (h : cfg.Override s k v = .ok cfg') : cfg'.Get s k d = (v, true) := by
  obtain ⟨-, -, sect', h1, h2, -⟩ := Config.Override_ok_spec h
  simp [Config.Get, h1, h2]

/-- C2, at the two states the claim includes and the code does not handle:
with a nil override map, and with a nil section `s` in the override map,
`Override(s,k,v)` panics with "assignment to entry in nil map", so no `Get`
follows it. -/
theorem Config.Override_nil_panics :
    (Config.mk GoMap.make GoMap.nil).Override "s" "k" "v"
      = .error ⟨"assignment to entry in nil map"⟩ ∧
    (Config.mk GoMap.make (GoMap.ofList [("s", GoMap.nil)])).Override "s" "k" "v"
      = .error ⟨"assignment to entry in nil map"⟩ := by
  constructor <;> rfl

/-- C10: `Override(s,k,v)` changes the result of `Get` only at `(s,k)`: at any
other `(s',k')` and for any default, `Get` returns after the override what it
returned before, and the source layer is unchanged. -/
theorem Config.Override_frame (cfg cfg' : Config) (s k v s' k' d : String)
    (h : cfg.Override s k v = .ok cfg') (hne : (s', k') ≠ (s, k)) :
    cfg'.Get s' k' d = cfg.Get s' k' d ∧ cfg'.source = cfg.source := by
  obtain ⟨hsrc, hother, sect', h1, -, h3⟩ := Config.Override_ok_spec h
  refine ⟨?_, hsrc⟩
  by_cases hs : s' = s
  · subst hs
    have hk : k' ≠ k := fun hk => hne (by rw [hk])
    unfold Config.Get
    rw [h1, hsrc]
    simp only [h3 k' hk]
    cases cfg.overrides.lookup s' with
    | none => simp [GoMap.make, GoMap.lookup]
    | some sect => simp
  · unfold Config.Get
    rw [hother s' hs, hsrc]

/-- C10 at a concrete configuration: overriding `web.port` leaves the lookup
of `web.host` (same section, other key) as it was. -/
theorem Config.Override_frame_witness :
    sampleConfig.Override "web" "port" "8080" = .ok sampleOverridden ∧
    ("web", "host") ≠ ("web", "port") ∧
    sampleOverridden.Get "web" "host" "d" = sampleConfig.Get "web" "host" "d" ∧
    sampleOverridden.source = sampleConfig.source :=
  ⟨rfl, by decide,
    Config.Override_frame sampleConfig sampleOverridden "web" "port" "8080" "web" "host" "d" rfl
      (by decide)⟩

/-! ## Sections and keys -/

/-- C7: `Sections()` contains a name exactly once if it is a section of the
source layer or of the override layer and not at all otherwise, and
`SectionKeys(s)` contains a key exactly once if it is a key of section `s` in
the source layer or in the override layer and not at all otherwise. -/
theorem Config.Sections_SectionKeys_union (cfg : Config) (s : String) :
    (∀ name, cfg.Sections.count name =
      if cfg.source.hasSection name || cfg.overrides.hasSection name then 1 else 0) ∧
    (∀ key, (cfg.SectionKeys s).count key =
      if cfg.source.hasKey s key || cfg.overrides.hasKey s key then 1 else 0) := by
  constructor
  · intro name
    apply count_of_nodup
    · simp only [Config.Sections, collectKeys_eq]
      exact AList.keys_nodup _
    · simp only [Config.Sections, collectKeys_eq, mem_markAll, ConfigMap.Sections_eq,
        GoMap.mem_keys_iff, ConfigMap.hasSection, Bool.or_eq_true]
      simp
  · intro key
    apply count_of_nodup
    · simp only [Config.SectionKeys, collectKeys_eq]
      exact AList.keys_nodup _
    · simp only [Config.SectionKeys, collectKeys_eq, Bool.or_eq_true]
      cases ho : cfg.overrides.lookup s with
      | none =>
        simp [mem_markAll, ConfigMap.mem_SectionKeys, ConfigMap.hasKey, ho]
      | some sect =>
        simp [mem_markAll, ConfigMap.mem_SectionKeys, GoMap.mem_keys_iff, ConfigMap.hasKey, ho]

/-- C7 at a concrete configuration: the section `web` is in both layers and is
listed once; the key `port` of `web` is in the source layer only and is listed
once; a section in neither layer has no keys. -/
theorem Config.Sections_SectionKeys_union_witness :
    sampleConfig.Sections.count "web" = 1 ∧
    (sampleConfig.SectionKeys "web").count "port" = 1 ∧
    (sampleConfig.SectionKeys "absent").count "port" = 0 :=
  ⟨((Config.Sections_SectionKeys_union sampleConfig "web").1 "web").trans (by decide),
    ((Config.Sections_SectionKeys_union sampleConfig "web").2 "port").trans (by decide),
    ((Config.Sections_SectionKeys_union sampleConfig "absent").2 "port").trans (by decide)⟩

/-! ## Typed accessors -/

/-- C4: each of `GetInt`, `GetInt64`, `GetBool` and `GetFloat32` aborts
execution if and only if the layered lookup finds a string for the key and
the string does not parse as the accessor's type; when the key is not found
it returns the caller's default with found false, and when the string parses
it returns the parsed value with found true. -/
theorem Config.typed_accessors_fail_fast {F64 F32 : Type}
    (atoi : String → Except String Int) (parseInt : String → Nat → Nat → Except String Int)
    (parseBool : String → Except String Bool) (parseFloat : String → Nat → Except String F64)
    (toFloat32 : F64 → F32) (cfg : Config) (s k : String)
    (dInt dInt64 : Int) (dBool : Bool) (dFloat : F32) :
    FailFast (cfg.Get s k "") atoi dInt (cfg.GetInt atoi s k dInt) ∧
    FailFast (cfg.Get s k "") (fun v => parseInt v 10 64) dInt64
      (cfg.GetInt64 parseInt s k dInt64) ∧
    FailFast (cfg.Get s k "") parseBool dBool (cfg.GetBool parseBool s k dBool) ∧
    FailFast (cfg.Get s k "") (fun v => (parseFloat v 32).map toFloat32) dFloat
      (cfg.GetFloat32 parseFloat toFloat32 s k dFloat) := by
  refine ⟨?_, ?_, ?_, ?_⟩
  · unfold Config.GetInt
    generalize cfg.Get s k "" = found
    obtain ⟨v, b⟩ := found
    cases b with
    | false => simp [FailFast, aborted]
    | true => cases h : atoi v <;> simp [FailFast, aborted, rejects, h]
  · unfold Config.GetInt64
    generalize cfg.Get s k "" = found
    obtain ⟨v, b⟩ := found
    cases b with
    | false => simp [FailFast, aborted]
    | true => cases h : parseInt v 10 64 <;> simp [FailFast, aborted, rejects, h]
  · unfold Config.GetBool
    generalize cfg.Get s k "" = found
    obtain ⟨v, b⟩ := found
    cases b with
    | false => simp [FailFast, aborted]
    | true => cases h : parseBool v <;> simp [FailFast, aborted, rejects, h]
  · unfold Config.GetFloat32
    generalize cfg.Get s k "" = found
    obtain ⟨v, b⟩ := found
    cases b with
    | false => simp [FailFast, aborted]
    | true => cases h : parseFloat v 32 <;> simp [FailFast, aborted, rejects, h, Except.map]

/-- C4 at a concrete configuration: `web.host` is found and is not a number,
so `GetInt` aborts with its message and `GetBool` aborts; `web.missing` is not
found, so `GetInt` returns the default; `gop.graceful_wait_secs` parses. -/
theorem Config.typed_accessors_fail_fast_witness :
    sampleConfig.GetInt sampleAtoi "web" "host" 7
      = .error ⟨"Non-numeric config key host: example.org [invalid syntax]"⟩ ∧
    aborted (sampleConfig.GetBool sampleParseBool "web" "host" false) ∧
    sampleConfig.GetInt sampleAtoi "web" "missing" 7 = .ok (7, false) ∧
    sampleConfig.GetInt sampleAtoi "gop" "graceful_wait_secs" 60 = .ok (30, true) :=
  have h := Config.typed_accessors_fail_fast sampleAtoi sampleParseInt sampleParseBool
    sampleParseFloat id sampleConfig "web" "host" 7 7 false (Decimal.mk 0 0)
  have h' := Config.typed_accessors_fail_fast sampleAtoi sampleParseInt sampleParseBool
    sampleParseFloat id sampleConfig "web" "missing" 7 7 false (Decimal.mk 0 0)
  have h'' := Config.typed_accessors_fail_fast sampleAtoi sampleParseInt sampleParseBool
    sampleParseFloat id sampleConfig "gop" "graceful_wait_secs" 60 7 false (Decimal.mk 0 0)
  ⟨by decide, h.2.2.1.1.mpr ⟨by decide, ⟨"invalid syntax", by decide⟩⟩, h'.1.2.1 (by decide),
    h''.1.2.2 30 (by decide) (by decide)⟩

/-! ## GetList -/

theorem trimLoop_invariant (f : String → String) (v : List String) (n : Nat) :
    ((List.range n).foldl (fun v i => v.set i (f (v.getD i ""))) v).length = v.length ∧
    ∀ i, ((List.range n).foldl (fun v i => v.set i (f (v.getD i ""))) v)[i]? =
      if i < n then (v[i]?).map f else v[i]? := by
  induction n with
  | zero => simp
  | succ n ih =>
    obtain ⟨hlen, hget⟩ := ih
    rw [List.range_succ, List.foldl_append]
    simp only [List.foldl_cons, List.foldl_nil, List.length_set]
    refine ⟨hlen, fun i => ?_⟩
    rw [List.getElem?_set]
    by_cases hin : n = i
    · subst hin
      simp only [if_true, hlen, Nat.lt_succ_self]
      by_cases hlt : n < v.length
      · have h1 := hget n
        simp only [Nat.lt_irrefl, if_false] at h1
        rw [List.getD_eq_getElem?_getD, h1]
        simp [hlt]
      · simp [hlt, List.getElem?_eq_none (Nat.le_of_not_lt hlt)]
    · simp only [hin, if_false]
      rw [hget i]
      have : (i < n + 1) = (i < n) := by
        apply propext
        omega
      simp only [this]

theorem trimEach_eq_map (v : List String) : trimEach v = v.map strings.TrimSpace := by
  obtain ⟨-, hget⟩ := trimLoop_invariant strings.TrimSpace v v.length
  apply List.ext_getElem?
  intro i
  rw [trimEach, hget i, List.getElem?_map]
  by_cases hlt : i < v.length
  · simp [hlt]
  · simp [hlt, List.getElem?_eq_none (Nat.le_of_not_lt hlt)]

theorem splitChars_ne_nil (sep : Char) (l : List Char) : splitChars sep l ≠ [] := by
  cases l with
  | nil => simp [splitChars]
  | cons c cs =>
    unfold splitChars
    split
    · simp
    · split <;> simp

theorem length_splitChars (sep : Char) (l : List Char) :
    (splitChars sep l).length = l.count sep + 1 := by
  induction l with
  | nil => simp [splitChars]
  | cons c cs ih =>
    unfold splitChars
    by_cases hc : c = sep
    · subst hc
      simp [ih]
    · have hc' : (c == sep) = false := by simpa using hc
      rw [if_neg hc, List.count_cons, hc']
      cases hs : splitChars sep cs with
      | nil => exact absurd hs (splitChars_ne_nil sep cs)
      | cons p ps =>
        rw [hs] at ih
        simpa using ih

theorem intercalate_splitChars (sep : Char) (l : List Char) :
    [sep].intercalate (splitChars sep l) = l := by
  induction l with
  | nil => simp [splitChars, List.intercalate]
  | cons c cs ih =>
    unfold splitChars
    by_cases hc : c = sep
    · subst hc
      rw [if_pos rfl]
      cases hs : splitChars c cs with
      | nil => exact absurd hs (splitChars_ne_nil c cs)
      | cons p ps =>
        rw [hs] at ih
        simp only [List.intercalate, List.intersperse, List.flatten] at ih ⊢
        simp [ih]
    · rw [if_neg hc]
      cases hs : splitChars sep cs with
      | nil => exact absurd hs (splitChars_ne_nil sep cs)
      | cons p ps =>
        rw [hs] at ih
        cases ps with
        | nil =>
          simp only [List.intercalate, List.intersperse, List.flatten] at ih ⊢
          simp [← ih]
        | cons q qs =>
          simp only [List.intercalate, List.intersperse, List.flatten] at ih ⊢
          simp [← ih]

theorem not_mem_of_mem_splitChars (sep : Char) (l p : List Char)
    (hp : p ∈ splitChars sep l) : sep ∉ p := by
  induction l generalizing p with
  | nil =>
    simp only [splitChars, List.mem_singleton] at hp
    simp [hp]
  | cons c cs ih =>
    unfold splitChars at hp
    by_cases hc : c = sep
    · rw [if_pos hc, List.mem_cons] at hp
      rcases hp with hp | hp
      · simp [hp]
      · exact ih p hp
    · rw [if_neg hc] at hp
      cases hs : splitChars sep cs with
      | nil => exact absurd hs (splitChars_ne_nil sep cs)
      | cons q qs =>
        rw [hs] at hp ih
        simp only [List.mem_cons] at hp
        rcases hp with hp | hp
        · subst hp
          have := ih q (List.mem_cons_self _ _)
          simp only [List.mem_cons, not_or]
          exact ⟨fun h => hc h.symm, this⟩
        · exact ih p (List.mem_cons_of_mem _ hp)

theorem isTrimOf_TrimSpace (piece : String) : IsTrimOf piece (strings.TrimSpace piece) := by
  have hd : (piece.data.dropWhile unicode.IsSpace).rdropWhile unicode.IsSpace ++
      (piece.data.dropWhile unicode.IsSpace).rtakeWhile unicode.IsSpace =
      piece.data.dropWhile unicode.IsSpace := by
    simp only [List.rdropWhile, List.rtakeWhile, ← List.reverse_append,
      List.takeWhile_append_dropWhile, List.reverse_reverse]
  refine ⟨piece.data.takeWhile unicode.IsSpace,
    (piece.data.dropWhile unicode.IsSpace).rtakeWhile unicode.IsSpace, ?_, ?_, ?_, ?_, ?_⟩
  · simp only [strings.TrimSpace, List.append_assoc]
    rw [hd, List.takeWhile_append_dropWhile]
  · intro c hc
    exact List.mem_takeWhile_imp hc
  · intro c hc
    exact List.mem_rtakeWhile_imp hc
  · intro c hc
    simp only [strings.TrimSpace] at hc
    have hpre : (piece.data.dropWhile unicode.IsSpace).rdropWhile unicode.IsSpace <+:
        piece.data.dropWhile unicode.IsSpace := List.rdropWhile_prefix _ _
    obtain ⟨t, ht⟩ := hpre
    have hhead : (piece.data.dropWhile unicode.IsSpace).head? = some c := by
      rw [← ht, List.head?_append, hc]
      rfl
    have := List.head?_dropWhile_not unicode.IsSpace piece.data
    rw [hhead] at this
    simpa using this
  · intro c hc
    simp only [strings.TrimSpace] at hc
    have hne : (piece.data.dropWhile unicode.IsSpace).rdropWhile unicode.IsSpace ≠ [] := by
      intro h
      rw [h] at hc
      simp at hc
    have := List.rdropWhile_last_not unicode.IsSpace _ hne
    rw [List.getLast?_eq_getLast _ hne] at hc
    simp only [Option.some.injEq] at hc
    rw [hc] at this
    simpa using this

theorem forall₂_isTrimOf_map (ps : List String) :
    List.Forall₂ IsTrimOf ps (ps.map strings.TrimSpace) := by
  induction ps with
  | nil => simp
  | cons p ps ih => exact List.Forall₂.cons (isTrimOf_TrimSpace p) ih

theorem Config.GetList_of_found {cfg : Config} {s k str : String} (dflt : List String)
    (h : cfg.Get s k "" = (str, true)) :
    cfg.GetList s k dflt = .ok ((strings.Split str ',').map strings.TrimSpace, true) := by
  simp [Config.GetList, h, trimEach_eq_map]

/-- C5: when the layered lookup finds the string `str`, `GetList` returns,
with found true, `str` split at every comma with the white space around each
piece trimmed, in order: the raw pieces contain no comma and joined by commas
give `str` back, each element is the trimmed piece at its place, and there is
one more element than `str` has commas. So `"a,  b ,c"` yields `a`, `b`, `c`
and a found empty string yields one empty element. The default is returned,
with found false, exactly when the key is not found. -/
theorem Config.GetList_split_trim (cfg : Config) (s k : String) (dflt : List String) :
    (∀ str, cfg.Get s k "" = (str, true) →
      ∃ pieces xs, cfg.GetList s k dflt = .ok (xs, true) ∧
        [','].intercalate (pieces.map String.data) = str.data ∧
        (∀ p ∈ pieces, ',' ∉ p.data) ∧
        List.Forall₂ IsTrimOf pieces xs ∧
        xs.length = str.data.count ',' + 1) ∧
    (cfg.Get s k "" = ("a,  b ,c", true) →
      cfg.GetList s k dflt = .ok (["a", "b", "c"], true)) ∧
    (cfg.Get s k "" = ("", true) → cfg.GetList s k dflt = .ok ([""], true)) ∧
    ((cfg.Get s k "").2 = false → cfg.GetList s k dflt = .ok (dflt, false)) ∧
    (∀ xs, cfg.GetList s k dflt = .ok (xs, false) → (cfg.Get s k "").2 = false) := by
  refine ⟨?_, ?_, ?_, ?_, ?_⟩
  · intro str h
    refine ⟨strings.Split str ',', (strings.Split str ',').map strings.TrimSpace,
      Config.GetList_of_found dflt h, ?_, ?_, forall₂_isTrimOf_map _, ?_⟩
    · have : (strings.Split str ',').map String.data = splitChars ',' str.data := by
        simp [strings.Split, Function.comp_def]
      rw [this, intercalate_splitChars]
    · intro p hp
      simp only [strings.Split, List.mem_map] at hp
      obtain ⟨q, hq, rfl⟩ := hp
      exact not_mem_of_mem_splitChars ',' str.data q hq
    · simp [strings.Split, length_splitChars]
  · intro h
    rw [Config.GetList_of_found dflt h]
    decide
  · intro h
    rw [Config.GetList_of_found dflt h]
    decide
  · intro h
    unfold Config.GetList
    generalize cfg.Get s k "" = found at h
    obtain ⟨v, b⟩ := found
    simp only at h
    subst h
    rfl
  · intro xs h
    unfold Config.GetList at h
    generalize cfg.Get s k "" = found at h
    obtain ⟨v, b⟩ := found
    cases b with
    | false => rfl
    | true => simp at h

/-- C5 at a concrete configuration: the found value `"a,  b ,c"` yields the
three trimmed elements, the found empty value yields one empty element and
not the default, and a key that is not found yields the default. -/
theorem Config.GetList_split_trim_witness :
    sampleListConfig.GetList "gop" "log_granulars" ["x"] = .ok (["a", "b", "c"], true) ∧
    sampleListConfig.GetList "gop" "tags" ["x"] = .ok ([""], true) ∧
    sampleListConfig.GetList "gop" "missing" ["x"] = .ok (["x"], false) :=
  ⟨(Config.GetList_split_trim sampleListConfig "gop" "log_granulars" ["x"]).2.1 (by decide),
    (Config.GetList_split_trim sampleListConfig "gop" "tags" ["x"]).2.2.1 (by decide),
    (Config.GetList_split_trim sampleListConfig "gop" "missing" ["x"]).2.2.2.1 (by decide)⟩

/-! ## GetDuration -/

/-- C6: when the layered lookup finds a string that does not parse as a
duration, `GetDuration` returns the caller's default with found false; it
returns the same when the key is not found; it returns a duration with found
true only when the key is found and its string parses to that duration; and
it never aborts. -/
theorem Config.GetDuration_lenient (parseDuration : String → Except String Int) (cfg : Config)
    (s k : String) (dflt : Int) :
    (∀ str, cfg.Get s k "" = (str, true) → rejects parseDuration str →
      cfg.GetDuration parseDuration s k dflt = .ok (dflt, false)) ∧
    ((cfg.Get s k "").2 = false → cfg.GetDuration parseDuration s k dflt = .ok (dflt, false)) ∧
    (∀ d, cfg.GetDuration parseDuration s k dflt = .ok (d, true) ↔
      ∃ str, cfg.Get s k "" = (str, true) ∧ parseDuration str = .ok d) ∧
    ¬ aborted (cfg.GetDuration parseDuration s k dflt) := by
  unfold Config.GetDuration
  generalize cfg.Get s k "" = found
  obtain ⟨v, b⟩ := found
  cases b with
  | false => simp [aborted]
  | true =>
    cases hp : parseDuration v with
    | ok r => simp [aborted, rejects, hp]
    | error e =>
      simp [aborted, rejects, hp]

/-- C6 at a concrete configuration: `web.host` is found and is not a duration,
and `GetDuration` returns the default, not found, without aborting. -/
theorem Config.GetDuration_lenient_witness :
    sampleConfig.Get "web" "host" "" = ("example.org", true) ∧
    rejects sampleParseDuration "example.org" ∧
    sampleConfig.GetDuration sampleParseDuration "web" "host" 5 = .ok (5, false) :=
  ⟨by decide, ⟨"invalid duration", by decide⟩,
    (Config.GetDuration_lenient sampleParseDuration sampleConfig "web" "host" 5).1
      "example.org" (by decide) ⟨"invalid duration", by decide⟩⟩

/-! ## The drain loop -/

theorem drainLoop_skip (reqs : Nat → Nat) (tail : List DrainEvent) (n a : Nat)
    (h : ∀ j, a ≤ j → j < a + n → reqs j ≠ 0) :
    drainLoop reqs ((List.range' a n).map DrainEvent.tick ++ tail) = drainLoop reqs tail := by
  induction n generalizing a with
  | zero => simp
  | succ n ih =>
    rw [List.range'_succ, List.map_cons, List.cons_append, drainLoop,
      if_neg (h a (Nat.le_refl a) (by omega))]
    exact ih (a + 1) (fun j h1 h2 => h j (by omega) (by omega))

theorem drainLoop_first_zero (reqs : Nat → Nat) (tail : List DrainEvent) (n a N : Nat)
    (ha : a ≤ N) (hN : N < a + n) (hz : reqs N = 0) (h : ∀ j, a ≤ j → j < N → reqs j ≠ 0) :
    drainLoop reqs ((List.range' a n).map DrainEvent.tick ++ tail) = some (DrainExit.idle N) := by
  have hsplit : List.range' a n = List.range' a (N - a) ++ List.range' N (n - (N - a)) := by
    have := List.range'_append a (N - a) (n - (N - a)) 1
    rw [Nat.one_mul, Nat.add_sub_cancel' ha, Nat.sub_add_cancel (by omega)] at this
    exact this.symm
  obtain ⟨m, hm⟩ : ∃ m, n - (N - a) = m + 1 := ⟨n - (N - a) - 1, by omega⟩
  rw [hsplit, List.map_append, List.append_assoc,
    drainLoop_skip reqs _ (N - a) a (fun j h1 h2 => h j h1 (by omega)), hm, List.range'_succ,
    List.map_cons, List.cons_append, drainLoop, if_pos hz]

theorem ticks_before_iff (timeoutNs tickNs : Int) (hpos : 0 < tickNs) (N : Nat) (hN : 1 ≤ N) :
    (N : Int) * tickNs < timeoutNs ↔ N ≤ ((timeoutNs - 1) / tickNs).toNat := by
  have h1 : (N : Int) * tickNs < timeoutNs ↔ (N : Int) ≤ (timeoutNs - 1) / tickNs := by
    rw [Int.le_ediv_iff_mul_le hpos]
    generalize (N : Int) * tickNs = x
    omega
  rw [h1]
  generalize (timeoutNs - 1) / tickNs = q
  omega

theorem drainSchedule_eq (timeoutNs tickNs : Int) (tie : Bool) (hpos : 0 < tickNs) :
    drainSchedule timeoutNs tickNs tie =
      (List.range' 1 ((timeoutNs - 1) / tickNs).toNat).map DrainEvent.tick ++
        ((if tie && decide (0 < timeoutNs) && decide (timeoutNs % tickNs = 0) then
            [DrainEvent.tick (timeoutNs / tickNs).toNat]
          else []) ++ [DrainEvent.timeout]) := by
  simp [drainSchedule, not_le.mpr hpos]

/-- The ticks of the schedule are those that fall before the deadline, and,
when `select` takes the tick first on a tie, the one that falls on it. -/
theorem mem_drainSchedule_tick (timeoutNs tickNs : Int) (tie : Bool) (hpos : 0 < tickNs)
    (j : Nat) :
    DrainEvent.tick j ∈ drainSchedule timeoutNs tickNs tie ↔
      1 ≤ j ∧ ((j : Int) * tickNs < timeoutNs ∨ (tie = true ∧ (j : Int) * tickNs = timeoutNs)) := by
  rw [drainSchedule_eq timeoutNs tickNs tie hpos]
  simp only [List.mem_append, List.mem_map, List.mem_range'_1, DrainEvent.tick.injEq,
    exists_eq_right, List.mem_singleton, reduceCtorEq, or_false]
  constructor
  · rintro (⟨h1, h2⟩ | h)
    · exact ⟨h1, Or.inl ((ticks_before_iff timeoutNs tickNs hpos j h1).mpr (by omega))⟩
    · split at h
      · rename_i hc
        simp only [Bool.and_eq_true, decide_eq_true_eq] at hc
        obtain ⟨⟨ht, h0⟩, hdvd⟩ := hc
        simp only [List.mem_singleton, DrainEvent.tick.injEq] at h
        have hmul : timeoutNs / tickNs * tickNs = timeoutNs :=
          Int.ediv_mul_cancel (Int.dvd_of_emod_eq_zero hdvd)
        have hq : (1 : Int) ≤ timeoutNs / tickNs := by
          rw [Int.le_ediv_iff_mul_le hpos, Int.one_mul]
          exact Int.le_of_dvd h0 (Int.dvd_of_emod_eq_zero hdvd)
        have hj : (j : Int) = timeoutNs / tickNs := by
          rw [h]
          exact Int.toNat_of_nonneg (by omega)
        refine ⟨by omega, Or.inr ⟨ht, ?_⟩⟩
        rw [hj, hmul]
      · simp at h
  · rintro ⟨h1, h | ⟨ht, h⟩⟩
    · exact Or.inl ⟨h1, by
        have := (ticks_before_iff timeoutNs tickNs hpos j h1).mp h
        omega⟩
    · right
      have h0 : 0 < timeoutNs := by
        rw [← h]
        exact Int.mul_pos (by omega) hpos
      have hmod : timeoutNs % tickNs = 0 := by
        rw [← h]
        exact Int.mul_emod_left _ _
      have hdiv : timeoutNs / tickNs = j := by
        rw [← h]
        exact Int.mul_ediv_cancel _ (by omega)
      rw [if_pos (by simp [ht, h0, hmod])]
      simp [hdiv]

/-- The schedule lists its events in the order of their times. -/
theorem drainSchedule_sorted (timeoutNs tickNs : Int) (tie : Bool) (hpos : 0 < tickNs) :
    (drainSchedule timeoutNs tickNs tie).Pairwise
      (fun a b => a.time timeoutNs tickNs ≤ b.time timeoutNs tickNs) := by
  have hbefore : ∀ j ∈ List.range' 1 ((timeoutNs - 1) / tickNs).toNat,
      (j : Int) * tickNs < timeoutNs := by
    intro j hj
    rw [List.mem_range'_1] at hj
    exact (ticks_before_iff timeoutNs tickNs hpos j hj.1).mpr (by omega)
  rw [drainSchedule_eq timeoutNs tickNs tie hpos, List.pairwise_append]
  refine ⟨?_, ?_, ?_⟩
  · rw [List.pairwise_map]
    refine (List.pairwise_lt_range' 1 _).imp ?_
    intro a b hab
    simp only [DrainEvent.time]
    exact Int.mul_le_mul_of_nonneg_right (by omega) (by omega)
  · split
    · rename_i hc
      simp only [Bool.and_eq_true, decide_eq_true_eq] at hc
      obtain ⟨⟨-, h0⟩, hdvd⟩ := hc
      have hmul : timeoutNs / tickNs * tickNs = timeoutNs :=
        Int.ediv_mul_cancel (Int.dvd_of_emod_eq_zero hdvd)
      have hq : (0 : Int) ≤ timeoutNs / tickNs :=
        Int.ediv_nonneg (by omega) (by omega)
      simp only [List.singleton_append, List.pairwise_cons, List.mem_singleton, forall_eq,
        List.Pairwise.nil, and_true, DrainEvent.time, Int.toNat_of_nonneg hq, hmul]
      exact ⟨le_max_left timeoutNs 0, by simp⟩
    · simp
  · intro a ha b hb
    rw [List.mem_map] at ha
    obtain ⟨j, hj, rfl⟩ := ha
    have hlt := hbefore j hj
    rw [List.mem_append] at hb
    rcases hb with hb | hb
    · split at hb
      · rename_i hc
        simp only [Bool.and_eq_true, decide_eq_true_eq] at hc
        obtain ⟨⟨-, h0⟩, hdvd⟩ := hc
        have hmul : timeoutNs / tickNs * tickNs = timeoutNs :=
          Int.ediv_mul_cancel (Int.dvd_of_emod_eq_zero hdvd)
        have hq : (0 : Int) ≤ timeoutNs / tickNs :=
          Int.ediv_nonneg (by omega) (by omega)
        simp only [List.mem_singleton] at hb
        subst hb
        simp only [DrainEvent.time, Int.toNat_of_nonneg hq, hmul]
        omega
      · simp at hb
    · simp only [List.mem_singleton] at hb
      subst hb
      simp only [DrainEvent.time]
      exact le_trans (le_of_lt hlt) (le_max_left timeoutNs 0)

theorem exists_first_ending (reqs : Nat → Nat) (l : List DrainEvent)
    (h : ∃ e ∈ l, endsLoop reqs e = true) :
    ∃ before ev rest, l = before ++ ev :: rest ∧ (∀ e ∈ before, endsLoop reqs e = false) ∧
      endsLoop reqs ev = true := by
  induction l with
  | nil => simp at h
  | cons x xs ih =>
    by_cases hx : endsLoop reqs x = true
    · exact ⟨[], x, xs, rfl, by simp, hx⟩
    · have : ∃ e ∈ xs, endsLoop reqs e = true := by
        obtain ⟨e, he, hends⟩ := h
        rcases List.mem_cons.mp he with rfl | he
        · exact absurd hends hx
        · exact ⟨e, he, hends⟩
      obtain ⟨before, ev, rest, hl, hb, hev⟩ := ih this
      refine ⟨x :: before, ev, rest, by rw [hl]; rfl, ?_, hev⟩
      intro e he
      rcases List.mem_cons.mp he with rfl | he
      · simpa using hx
      · exact hb e he

theorem drainLoop_at_first_ending (reqs : Nat → Nat) (before rest : List DrainEvent)
    (ev : DrainEvent) (hb : ∀ e ∈ before, endsLoop reqs e = false)
    (hev : endsLoop reqs ev = true) :
    drainLoop reqs (before ++ ev :: rest) = some ev.exit := by
  induction before with
  | nil =>
    cases ev with
    | timeout => rfl
    | tick j =>
      have : reqs j = 0 := by simpa [endsLoop] using hev
      simp [drainLoop, this, DrainEvent.exit]
  | cons x xs ih =>
    have hx := hb x (List.mem_cons_self _ _)
    cases x with
    | timeout => simp [endsLoop] at hx
    | tick j =>
      have : reqs j ≠ 0 := by simpa [endsLoop] using hx
      rw [List.cons_append, drainLoop, if_neg this]
      exact ih (fun e he => hb e (List.mem_cons_of_mem _ he))

/-- The loop run on the schedule of a positive poll interval: it is left at
the first event of the schedule that ends it; at tick `N` when the counter
first reads zero there and `N * tickNs` is before the deadline; by the timeout
when the counter never reads zero. -/
theorem drainLoop_exit (timeoutNs tickNs : Int) (reqs : Nat → Nat) (tie : Bool)
    (hpos : 0 < tickNs) :
    (∃ before ev rest, drainSchedule timeoutNs tickNs tie = before ++ ev :: rest ∧
      (∀ e ∈ before, endsLoop reqs e = false) ∧ endsLoop reqs ev = true ∧
      drainLoop reqs (drainSchedule timeoutNs tickNs tie) = some ev.exit) ∧
    (∀ N : Nat, 1 ≤ N → (N : Int) * tickNs < timeoutNs → reqs N = 0 →
      (∀ j, 1 ≤ j → j < N → reqs j ≠ 0) →
      drainLoop reqs (drainSchedule timeoutNs tickNs tie) = some (DrainExit.idle N) ∧
      (DrainExit.idle N).time timeoutNs tickNs = N * tickNs) ∧
    ((∀ j, 1 ≤ j → reqs j ≠ 0) →
      drainLoop reqs (drainSchedule timeoutNs tickNs tie) = some DrainExit.timedOut ∧
      DrainExit.timedOut.time timeoutNs tickNs = max timeoutNs 0) := by
  have hsched := drainSchedule_eq timeoutNs tickNs tie hpos
  refine ⟨?_, ?_, ?_⟩
  · have hmem : ∃ e ∈ drainSchedule timeoutNs tickNs tie, endsLoop reqs e = true :=
      ⟨DrainEvent.timeout, by simp [hsched], rfl⟩
    obtain ⟨before, ev, rest, hl, hb, hev⟩ := exists_first_ending reqs _ hmem
    exact ⟨before, ev, rest, hl, hb, hev, by
      rw [hl]
      exact drainLoop_at_first_ending reqs before rest ev hb hev⟩
  · intro N hN hlt hz hfirst
    refine ⟨?_, rfl⟩
    rw [hsched]
    have hle := (ticks_before_iff timeoutNs tickNs hpos N hN).mp hlt
    exact drainLoop_first_zero reqs _ _ 1 N hN (by omega) hz hfirst
  · intro hnever
    refine ⟨?_, rfl⟩
    rw [hsched, drainLoop_skip reqs _ _ 1 (fun j h1 _ => hnever j h1)]
    by_cases hc : (tie && decide (0 < timeoutNs) && decide (timeoutNs % tickNs = 0)) = true
    · rw [if_pos hc]
      simp only [Bool.and_eq_true, decide_eq_true_eq] at hc
      obtain ⟨⟨-, h0⟩, hdvd⟩ := hc
      have hq : 1 ≤ (timeoutNs / tickNs).toNat := by
        have h1 : (1 : Int) ≤ timeoutNs / tickNs := by
          rw [Int.le_ediv_iff_mul_le hpos, Int.one_mul]
          exact Int.le_of_dvd h0 (Int.dvd_of_emod_eq_zero hdvd)
        generalize timeoutNs / tickNs = q at h1
        omega
      rw [List.singleton_append, drainLoop, if_neg (hnever _ hq)]
      rfl
    · rw [if_neg hc]
      rfl

/-! ## The coordinator -/

theorem startListener_calls {L E : Type} (w : World L E) (listenNet listenAddr : String) :
    (startListener w listenNet listenAddr).1 =
      match w.getEnvs.2.2 with
      | some _ => [Action.listen listenNet listenAddr]
      | none => [Action.killParent w.getEnvs.2.1] := by
  unfold startListener
  obtain ⟨l, ppid, err⟩ := w.getEnvs
  cases err with
  | some e =>
    simp only
    cases hl : w.listen listenNet listenAddr with
    | mk l' err' => cases err' <;> rfl
  | none =>
    simp only
    cases w.killParent ppid <;> rfl

theorem gracefulDrain_calls {L E : Type} (atoi : String → Except String Int) (w : World L E)
    (cfg : Config) : ∀ a ∈ (gracefulDrain atoi w cfg).1, a.isDrainCall = true := by
  unfold gracefulDrain
  cases cfg.GetInt atoi "gop" "graceful_wait_secs" 60 with
  | error p => simp
  | ok r1 =>
    obtain ⟨waitSecs, b1⟩ := r1
    cases cfg.GetInt atoi "gop" "graceful_poll_msecs" 500 with
    | error p => simp [Action.isDrainCall]
    | ok r2 =>
      obtain ⟨tickMillis, b2⟩ := r2
      simp only
      split <;> simp [Action.isDrainCall]

theorem startListener_no_drain {L E : Type} (w : World L E) (listenNet listenAddr : String) :
    reachedDrain (startListener w listenNet listenAddr).1 = false := by
  rw [startListener_calls]
  cases w.getEnvs.2.2 <;> simp [reachedDrain, Action.isDrainCall]

/-- C8 as the code has it: when the listener is up and the signal-wait and
relaunch step returns an error, `goAgainListenAndServe` hands the error to
`a.Fatalln` and the process exits there, after the calls of the startup,
`a.Serve` and `AwaitSignals` only: it does not reach the drain phase. The
drain phase is reached only when `AwaitSignals` returns no error. -/
theorem goAgain_await_error_is_fatal {L E : Type} (atoi : String → Except String Int)
    (w : World L E) (cfg : Config) (listenNet listenAddr : String) :
    (∀ l e, (startListener w listenNet listenAddr).2 = .ok l → w.awaitSignals l = some e →
      goAgainListenAndServe atoi w cfg listenNet listenAddr =
        ((startListener w listenNet listenAddr).1 ++ [Action.serve l, Action.awaitSignals l],
          Outcome.fatal e) ∧
      reachedDrain (goAgainListenAndServe atoi w cfg listenNet listenAddr).1 = false) ∧
    (reachedDrain (goAgainListenAndServe atoi w cfg listenNet listenAddr).1 = true →
      ∃ l, (startListener w listenNet listenAddr).2 = .ok l ∧ w.awaitSignals l = none) := by
  have hno := startListener_no_drain w listenNet listenAddr
  unfold goAgainListenAndServe
  cases hs : startListener w listenNet listenAddr with
  | mk calls res =>
    rw [hs] at hno
    simp only at hno
    cases res with
    | error err =>
      refine ⟨fun l e h => by simp at h, fun h => ?_⟩
      simp only [hno] at h
      exact absurd h (by simp)
    | ok l =>
      constructor
      · intro l' e hl he
        simp only [Except.ok.injEq] at hl
        subst hl
        simp only [he, true_and]
        simpa [reachedDrain, Action.isDrainCall] using hno
      · intro h
        refine ⟨l, rfl, ?_⟩
        cases ha : w.awaitSignals l with
        | none => rfl
        | some e =>
          simp only [ha] at h
          have : reachedDrain (calls ++ [Action.serve l, Action.awaitSignals l]) = false := by
            simpa [reachedDrain, Action.isDrainCall] using hno
          rw [this] at h
          exact absurd h (by simp)

/-- C8 at a concrete run of the amended statement: a standalone start whose
relaunch fails ends in `a.Fatalln` with the relaunch error, after binding,
serving and awaiting only. -/
theorem goAgain_await_error_is_fatal_witness :
    goAgainListenAndServe sampleAtoi relaunchFails sampleConfig "tcp" ":80" =
      ([Action.listen "tcp" ":80", Action.serve "listener on :80",
        Action.awaitSignals "listener on :80"], Outcome.fatal "fork/exec failed") :=
  ((goAgain_await_error_is_fatal sampleAtoi relaunchFails sampleConfig "tcp" ":80").1
    "listener on :80" "fork/exec failed" (by decide) (by decide)).1

/-- C8 as stated fails: in the run `relaunchFails` the restart trigger is
received, the relaunch fails (`AwaitSignals` returns an error), and the
coordinator does not proceed to the drain loop: it exits in `a.Fatalln`. -/
theorem goAgain_relaunch_failure_no_drain :
    (startListener relaunchFails "tcp" ":80").2 = .ok "listener on :80" ∧
    relaunchFails.awaitSignals "listener on :80" = some "fork/exec failed" ∧
    reachedDrain (goAgainListenAndServe sampleAtoi relaunchFails sampleConfig "tcp" ":80").1
      = false ∧
    (goAgainListenAndServe sampleAtoi relaunchFails sampleConfig "tcp" ":80").2
      = Outcome.fatal "fork/exec failed" := by
  decide

/-- C9: at startup, when the environment inspection yields a listener `l` and
a parent pid `p` with no error, the coordinator first asks to kill `p`; a
failure of that is fatal, otherwise it serves on `l`; it never calls
`net.Listen`. When the inspection returns an error, the coordinator binds a
listener on `(listenNet, listenAddr)`; a failure of that is fatal, otherwise
it serves on the new listener; it never calls `KillParent`. -/
theorem goAgain_startup {L E : Type} (atoi : String → Except String Int)
    (w : World L E) (cfg : Config) (listenNet listenAddr : String) :
    (∀ l p, w.getEnvs = (l, p, none) →
      (∀ n a, Action.listen n a ∉ (goAgainListenAndServe atoi w cfg listenNet listenAddr).1) ∧
      (∀ e, w.killParent p = some e →
        goAgainListenAndServe atoi w cfg listenNet listenAddr =
          ([Action.killParent p], Outcome.fatal e)) ∧
      (w.killParent p = none →
        ∃ rest, (goAgainListenAndServe atoi w cfg listenNet listenAddr).1 =
          Action.killParent p :: Action.serve l :: Action.awaitSignals l :: rest)) ∧
    (∀ l p e0, w.getEnvs = (l, p, some e0) →
      (∀ q, Action.killParent q ∉ (goAgainListenAndServe atoi w cfg listenNet listenAddr).1) ∧
      (∀ l' e, w.listen listenNet listenAddr = (l', some e) →
        goAgainListenAndServe atoi w cfg listenNet listenAddr =
          ([Action.listen listenNet listenAddr], Outcome.fatal e)) ∧
      (∀ l', w.listen listenNet listenAddr = (l', none) →
        ∃ rest, (goAgainListenAndServe atoi w cfg listenNet listenAddr).1 =
          Action.listen listenNet listenAddr :: Action.serve l' :: Action.awaitSignals l' ::
            rest)) := by
  have hdrain := gracefulDrain_calls atoi w cfg
  have hnot : ∀ a ∈ (gracefulDrain atoi w cfg).1,
      (∀ n b, a ≠ Action.listen n b) ∧ (∀ q, a ≠ Action.killParent q) := by
    intro a ha
    have := hdrain a ha
    constructor
    · intro n b hab
      subst hab
      simp [Action.isDrainCall] at this
    · intro q hab
      subst hab
      simp [Action.isDrainCall] at this
  constructor
  · intro l p henv
    have hstart : startListener w listenNet listenAddr =
        match w.killParent p with
        | some err => ([Action.killParent p], .error err)
        | none => ([Action.killParent p], .ok l) := by
      simp [startListener, henv]
    unfold goAgainListenAndServe
    rw [hstart]
    cases hk : w.killParent p with
    | some e => simp
    | none =>
      simp only
      cases ha : w.awaitSignals l with
      | some e => simp
      | none =>
        refine ⟨?_, by simp, fun _ => ⟨(gracefulDrain atoi w cfg).1, by simp⟩⟩
        intro n b hmem
        simp only [List.mem_append, List.mem_cons, List.mem_singleton, List.not_mem_nil,
          or_false, reduceCtorEq, false_or] at hmem
        exact (hnot _ hmem).1 n b rfl
  · intro l p e0 henv
    have hstart : startListener w listenNet listenAddr =
        match w.listen listenNet listenAddr with
        | (_, some err) => ([Action.listen listenNet listenAddr], .error err)
        | (l, none) => ([Action.listen listenNet listenAddr], .ok l) := by
      simp [startListener, henv]
    unfold goAgainListenAndServe
    rw [hstart]
    cases hl : w.listen listenNet listenAddr with
    | mk l' err =>
      cases err with
      | some e => simp
      | none =>
        simp only
        cases ha : w.awaitSignals l' with
        | some e => simp
        | none =>
          refine ⟨?_, by simp, fun l'' h => ⟨(gracefulDrain atoi w cfg).1, by simp at h; simp [h]⟩⟩
          intro q hmem
          simp only [List.mem_append, List.mem_cons, List.mem_singleton, List.not_mem_nil,
            or_false, reduceCtorEq, false_or] at hmem
          exact (hnot _ hmem).2 q rfl

/-- C9 at two concrete runs: an adopted start kills the parent 4711 and
serves on the inherited listener without binding; a standalone start binds
`tcp :80` and serves on the new listener without killing anyone. -/
theorem goAgain_startup_witness :
    (∃ rest, (goAgainListenAndServe sampleAtoi adopted sampleConfig "tcp" ":80").1 =
      Action.killParent 4711 :: Action.serve "inherited" :: Action.awaitSignals "inherited" ::
        rest) ∧
    (∃ rest, (goAgainListenAndServe sampleAtoi relaunchFails sampleConfig "tcp" ":80").1 =
      Action.listen "tcp" ":80" :: Action.serve "listener on :80" ::
        Action.awaitSignals "listener on :80" :: rest) :=
  ⟨((goAgain_startup sampleAtoi adopted sampleConfig "tcp" ":80").1 "inherited" 4711 rfl).2.2
      rfl,
    ((goAgain_startup sampleAtoi relaunchFails sampleConfig "tcp" ":80").2 ""
      0 "GOAGAIN_FD is not set" rfl).2.2 "listener on :80" rfl⟩

/-! ## The drain phase of the coordinator -/

theorem wrapInt64_of_range (x : Int) (h1 : -(2 : Int) ^ 63 ≤ x) (h2 : x < (2 : Int) ^ 63) :
    wrapInt64 x = x := by
  unfold wrapInt64
  norm_num at h1 h2 ⊢
  omega

theorem exists_first_zero (reqs : Nat → Nat) (j : Nat) (h1 : 1 ≤ j) (hz : reqs j = 0) :
    ∃ N, 1 ≤ N ∧ N ≤ j ∧ reqs N = 0 ∧ ∀ i, 1 ≤ i → i < N → reqs i ≠ 0 := by
  have hex : ∃ n, 1 ≤ n ∧ reqs n = 0 := ⟨j, h1, hz⟩
  refine ⟨Nat.find hex, (Nat.find_spec hex).1, Nat.find_min' hex ⟨h1, hz⟩,
    (Nat.find_spec hex).2, ?_⟩
  intro i hi hlt hzi
  exact Nat.find_min hex hlt ⟨hi, hzi⟩

theorem gracefulDrain_eq {L E : Type} (atoi : String → Except String Int) (w : World L E)
    (cfg : Config) (waitSecs tickMillis : Int) (f1 f2 : Bool)
    (hwait : cfg.GetInt atoi "gop" "graceful_wait_secs" 60 = .ok (waitSecs, f1))
    (htick : cfg.GetInt atoi "gop" "graceful_poll_msecs" 500 = .ok (tickMillis, f2)) :
    gracefulDrain atoi w cfg =
      ([Action.timeAfter (drainTimeoutNs waitSecs), Action.timeTick (drainTickNs tickMillis)],
        match drainLoop w.currentReqs
          (drainSchedule (drainTimeoutNs waitSecs) (drainTickNs tickMillis) w.tickFirstOnTie) with
        | some exit => Outcome.drained exit
        | none => Outcome.blocked) := by
  unfold gracefulDrain
  rw [hwait]
  simp only
  rw [htick]
  simp only [drainTimeoutNs, drainTickNs]
  split <;> rfl

/-- C3: the drain loop of `goAgainListenAndServe`, with the two tunables read
and the poll interval handed to `time.Tick` positive. The coordinator makes
the timeout channel, then the tick channel, and leaves the loop: it does not
block. It leaves at the first event, in the order of time, that is a tick at
which the in-flight counter reads zero or the timeout. If the counter first
reads zero at tick `N` and `N` poll intervals are before the deadline, the
loop is left at tick `N`; if the counter never reads zero, it is left by the
timeout. Conversely the loop is left at tick `N` only if `N` is the first
tick with a zero reading and falls at or before the deadline, and by the
timeout only if no tick before the deadline reads zero. The whole function,
once the listener is up and `AwaitSignals` has returned without error, ends
with these calls and this outcome. The deadline and the poll interval are the
int64 durations handed to `time.After` and `time.Tick`; they are the configured
seconds and milliseconds whenever those products fit in an int64. -/
theorem gracefulDrain_exit {L E : Type} (atoi : String → Except String Int) (w : World L E)
    (cfg : Config) (waitSecs tickMillis : Int) (f1 f2 : Bool)
    (hwait : cfg.GetInt atoi "gop" "graceful_wait_secs" 60 = .ok (waitSecs, f1))
    (htick : cfg.GetInt atoi "gop" "graceful_poll_msecs" 500 = .ok (tickMillis, f2))
    (hpos : 0 < drainTickNs tickMillis) :
    (∃ exit, gracefulDrain atoi w cfg =
      ([Action.timeAfter (drainTimeoutNs waitSecs), Action.timeTick (drainTickNs tickMillis)],
        Outcome.drained exit)) ∧
    (∃ before ev rest,
      drainSchedule (drainTimeoutNs waitSecs) (drainTickNs tickMillis) w.tickFirstOnTie =
        before ++ ev :: rest ∧
      (∀ e ∈ before, endsLoop w.currentReqs e = false ∧
        e.time (drainTimeoutNs waitSecs) (drainTickNs tickMillis) ≤
          ev.time (drainTimeoutNs waitSecs) (drainTickNs tickMillis)) ∧
      endsLoop w.currentReqs ev = true ∧
      (gracefulDrain atoi w cfg).2 = Outcome.drained ev.exit) ∧
    (∀ N : Nat, 1 ≤ N → (N : Int) * drainTickNs tickMillis < drainTimeoutNs waitSecs →
      w.currentReqs N = 0 → (∀ j, 1 ≤ j → j < N → w.currentReqs j ≠ 0) →
      (gracefulDrain atoi w cfg).2 = Outcome.drained (DrainExit.idle N)) ∧
    ((∀ j, 1 ≤ j → w.currentReqs j ≠ 0) →
      (gracefulDrain atoi w cfg).2 = Outcome.drained DrainExit.timedOut) ∧
    (∀ N : Nat, (gracefulDrain atoi w cfg).2 = Outcome.drained (DrainExit.idle N) →
      1 ≤ N ∧ (N : Int) * drainTickNs tickMillis ≤ drainTimeoutNs waitSecs ∧
      w.currentReqs N = 0 ∧ ∀ j, 1 ≤ j → j < N → w.currentReqs j ≠ 0) ∧
    ((gracefulDrain atoi w cfg).2 = Outcome.drained DrainExit.timedOut →
      ∀ j : Nat, 1 ≤ j → (j : Int) * drainTickNs tickMillis < drainTimeoutNs waitSecs →
        w.currentReqs j ≠ 0) ∧
    (∀ (listenNet listenAddr : String) (l : L),
      (startListener w listenNet listenAddr).2 = .ok l → w.awaitSignals l = none →
      goAgainListenAndServe atoi w cfg listenNet listenAddr =
        ((startListener w listenNet listenAddr).1 ++
          [Action.serve l, Action.awaitSignals l] ++ (gracefulDrain atoi w cfg).1,
          (gracefulDrain atoi w cfg).2)) ∧
    (-(2 : Int) ^ 63 ≤ 1000000000 * waitSecs → 1000000000 * waitSecs < (2 : Int) ^ 63 →
      drainTimeoutNs waitSecs = 1000000000 * waitSecs) ∧
    (-(2 : Int) ^ 63 ≤ 1000000 * tickMillis → 1000000 * tickMillis < (2 : Int) ^ 63 →
      drainTickNs tickMillis = 1000000 * tickMillis) := by
  have heq := gracefulDrain_eq atoi w cfg waitSecs tickMillis f1 f2 hwait htick
  obtain ⟨⟨before, ev, rest, hl, hb, hev, hrun⟩, hzero, hnever⟩ :=
    drainLoop_exit (drainTimeoutNs waitSecs) (drainTickNs tickMillis) w.currentReqs
      w.tickFirstOnTie hpos
  have hsorted := drainSchedule_sorted (drainTimeoutNs waitSecs) (drainTickNs tickMillis)
    w.tickFirstOnTie hpos
  have hout : ∀ x, drainLoop w.currentReqs
      (drainSchedule (drainTimeoutNs waitSecs) (drainTickNs tickMillis) w.tickFirstOnTie)
        = some x → (gracefulDrain atoi w cfg).2 = Outcome.drained x := by
    intro x hx
    rw [heq, hx]
  have hfirst : ∀ N : Nat, 1 ≤ N →
      (N : Int) * drainTickNs tickMillis < drainTimeoutNs waitSecs →
      w.currentReqs N = 0 → (∀ j, 1 ≤ j → j < N → w.currentReqs j ≠ 0) →
      (gracefulDrain atoi w cfg).2 = Outcome.drained (DrainExit.idle N) :=
    fun N h1 h2 h3 h4 => hout _ (hzero N h1 h2 h3 h4).1
  have hmono : ∀ a b : Nat, a ≤ b →
      (a : Int) * drainTickNs tickMillis ≤ (b : Int) * drainTickNs tickMillis :=
    fun a b hab => Int.mul_le_mul_of_nonneg_right (by omega) (le_of_lt hpos)
  refine ⟨⟨ev.exit, ?_⟩, ⟨before, ev, rest, hl, ?_, hev, hout _ hrun⟩, hfirst,
    fun h => hout _ (hnever h).1, ?_, ?_, ?_, ?_, ?_⟩
  · rw [heq, hrun]
  · intro e he
    refine ⟨hb e he, ?_⟩
    rw [hl, List.pairwise_append] at hsorted
    exact hsorted.2.2 e he ev (List.mem_cons_self _ _)
  · intro N hN
    have hexit : ev.exit = DrainExit.idle N := by
      have := hout _ hrun
      rw [hN] at this
      exact (Outcome.drained.inj this).symm
    have hevN : ev = DrainEvent.tick N := by
      cases ev with
      | timeout => simp [DrainEvent.exit] at hexit
      | tick j =>
        simp only [DrainEvent.exit, DrainExit.idle.injEq] at hexit
        rw [hexit]
    subst hevN
    have hz : w.currentReqs N = 0 := by simpa [endsLoop] using hev
    have hmem : DrainEvent.tick N ∈ drainSchedule (drainTimeoutNs waitSecs)
        (drainTickNs tickMillis) w.tickFirstOnTie := by
      rw [hl]
      simp
    rw [mem_drainSchedule_tick _ _ _ hpos] at hmem
    obtain ⟨h1, hle⟩ := hmem
    have hle' : (N : Int) * drainTickNs tickMillis ≤ drainTimeoutNs waitSecs := by
      rcases hle with h | ⟨-, h⟩
      · exact le_of_lt h
      · exact le_of_eq h
    refine ⟨h1, hle', hz, ?_⟩
    intro j hj hjN hzj
    obtain ⟨M, hM1, hMj, hMz, hMfirst⟩ := exists_first_zero w.currentReqs j hj hzj
    have hlt : (M : Int) * drainTickNs tickMillis < drainTimeoutNs waitSecs := by
      have hstep : (M : Int) * drainTickNs tickMillis <
          (N : Int) * drainTickNs tickMillis :=
        Int.mul_lt_mul_of_pos_right (by omega) hpos
      exact lt_of_lt_of_le hstep hle'
    have := hfirst M hM1 hlt hMz hMfirst
    rw [hN] at this
    have hNM : N = M := by simpa using this
    omega
  · intro hT j hj hlt hzj
    obtain ⟨M, hM1, hMj, hMz, hMfirst⟩ := exists_first_zero w.currentReqs j hj hzj
    have := hfirst M hM1 (lt_of_le_of_lt (hmono M j hMj) hlt) hMz hMfirst
    rw [hT] at this
    simp at this
  · intro listenNet listenAddr l hl' ha
    unfold goAgainListenAndServe
    cases hs : startListener w listenNet listenAddr with
    | mk calls res =>
      rw [hs] at hl'
      simp only at hl'
      subst hl'
      simp [ha]
  · intro h1 h2
    unfold drainTimeoutNs
    rw [wrapInt64_of_range waitSecs (by norm_num at h1 h2 ⊢; omega)
      (by norm_num at h1 h2 ⊢; omega), wrapInt64_of_range _ h1 h2]
  · intro h1 h2
    unfold drainTickNs
    rw [wrapInt64_of_range tickMillis (by norm_num at h1 h2 ⊢; omega)
      (by norm_num at h1 h2 ⊢; omega), wrapInt64_of_range _ h1 h2]

/-- C3 at a concrete run: an adopted start with `graceful_wait_secs = 30` and
the default poll interval of 500 ms, the counter reading 2, 1, 0 at ticks 1,
2, 3. The deadline is thirty seconds, the poll interval half a second, the
loop is left at tick 3, and that is how the whole function ends. -/
theorem gracefulDrain_exit_witness :
    sampleConfig.GetInt sampleAtoi "gop" "graceful_wait_secs" 60 = .ok (30, true) ∧
    sampleConfig.GetInt sampleAtoi "gop" "graceful_poll_msecs" 500 = .ok (500, false) ∧
    drainTimeoutNs 30 = 30000000000 ∧ drainTickNs 500 = 500000000 ∧
    (gracefulDrain sampleAtoi adopted sampleConfig).2 = Outcome.drained (DrainExit.idle 3) ∧
    goAgainListenAndServe sampleAtoi adopted sampleConfig "tcp" ":80" =
      ([Action.killParent 4711, Action.serve "inherited", Action.awaitSignals "inherited",
        Action.timeAfter 30000000000, Action.timeTick 500000000],
        Outcome.drained (DrainExit.idle 3)) :=
  have h := gracefulDrain_exit sampleAtoi adopted sampleConfig 30 500 true false
    (by decide) (by decide) (by decide)
  ⟨by decide, by decide, by decide, by decide,
    h.2.2.1 3 (by decide) (by decide) (by decide) (fun j h1 h2 => by
      have hj : j = 1 ∨ j = 2 := by omega
      rcases hj with rfl | rfl <;> decide),
    by decide⟩

/-! ## AsMap -/

theorem Config.mem_Sections (cfg : Config) (name : String) :
    name ∈ cfg.Sections ↔
      cfg.source.hasSection name = true ∨ cfg.overrides.hasSection name = true := by
  simp only [Config.Sections, collectKeys_eq, mem_markAll, ConfigMap.Sections_eq,
    GoMap.mem_keys_iff, ConfigMap.hasSection]
  simp

theorem Config.mem_SectionKeys_layers (cfg : Config) (s key : String) :
    key ∈ cfg.SectionKeys s ↔
      cfg.source.hasKey s key = true ∨ cfg.overrides.hasKey s key = true := by
  simp only [Config.SectionKeys, collectKeys_eq]
  cases ho : cfg.overrides.lookup s with
  | none => simp [mem_markAll, ConfigMap.mem_SectionKeys, ConfigMap.hasKey, ho]
  | some sect =>
    simp [mem_markAll, ConfigMap.mem_SectionKeys, GoMap.mem_keys_iff, ConfigMap.hasKey, ho]

theorem ConfigMap.hasKey_eq (m : ConfigMap) (s k : String) :
    m.hasKey s k = (m.holds s k).isSome := by
  unfold ConfigMap.hasKey ConfigMap.holds
  cases m.lookup s <;> rfl

theorem ConfigMap.hasSection_of_hasKey (m : ConfigMap) (s k : String)
    (h : m.hasKey s k = true) : m.hasSection s = true := by
  unfold ConfigMap.hasKey at h
  unfold ConfigMap.hasSection
  cases hl : m.lookup s with
  | none => simp [hl] at h
  | some sect => rfl

theorem Config.mem_Sections_of_mem_SectionKeys (cfg : Config) (s k : String)
    (h : k ∈ cfg.SectionKeys s) : s ∈ cfg.Sections := by
  rw [Config.mem_SectionKeys_layers] at h
  rw [Config.mem_Sections]
  exact h.imp (ConfigMap.hasSection_of_hasKey _ s k) (ConfigMap.hasSection_of_hasKey _ s k)

/-- The lookup finds `v` at `(s, k)` exactly when `k` is one of the keys of
`SectionKeys(s)` and `v` is the value the lookup returns there. -/
theorem Config.Get_eq_iff (cfg : Config) (s k v d : String) :
    cfg.Get s k d = (v, true) ↔ k ∈ cfg.SectionKeys s ∧ (cfg.Get s k "").1 = v := by
  rw [Config.mem_SectionKeys_layers, ConfigMap.hasKey_eq, ConfigMap.hasKey_eq,
    Config.Get_eq_layeredLookup, Config.Get_eq_layeredLookup]
  unfold layeredLookup
  cases cfg.overrides.holds s k with
  | some w => simp
  | none =>
    cases cfg.source.holds s k with
    | some w => simp
    | none => simp

theorem Config.fillSection_spec (cfg : Config) (sect : String) (keys : List String)
    (E : AList (fun _ : String => GoMap String)) (es0 : AList (fun _ : String => String))
    (h : E.lookup sect = some (GoMap.table es0)) :
    ∃ E' es', cfg.fillSection sect (GoMap.table E) keys = .ok (GoMap.table E') ∧
      E'.lookup sect = some (GoMap.table es') ∧
      (∀ k, es'.lookup k = if k ∈ keys then some (cfg.Get sect k "").1 else es0.lookup k) ∧
      (∀ s', s' ≠ sect → E'.lookup s' = E.lookup s') := by
  induction keys generalizing E es0 with
  | nil => exact ⟨E, es0, rfl, h, by simp, fun _ _ => rfl⟩
  | cons a keys ih =>
    have hstep : cfg.storeKey sect (GoMap.table E) a =
        .ok (GoMap.table (E.insert sect (GoMap.table (es0.insert a (cfg.Get sect a "").1)))) := by
      simp [Config.storeKey, GoMap.lookup, h, GoMap.assign, bind, Except.bind]
    obtain ⟨E', es', hrun, hsect, hkeys, hother⟩ :=
      ih (E.insert sect (GoMap.table (es0.insert a (cfg.Get sect a "").1)))
        (es0.insert a (cfg.Get sect a "").1) (AList.lookup_insert _)
    refine ⟨E', es', ?_, hsect, ?_, ?_⟩
    · unfold Config.fillSection at hrun ⊢
      rw [List.foldlM_cons, hstep]
      exact hrun
    · intro k
      rw [hkeys k]
      by_cases hk : k ∈ keys
      · simp [hk]
      · by_cases hka : k = a
        · subst hka
          simp [hk]
        · simp [hk, hka, AList.lookup_insert_ne hka]
    · intro s' hs'
      rw [hother s' hs', AList.lookup_insert_ne hs']

theorem Config.dumpSection_spec (cfg : Config) (sect : String)
    (E : AList (fun _ : String => GoMap String)) :
    ∃ E' inner, cfg.dumpSection (GoMap.table E) sect = .ok (GoMap.table E') ∧
      E'.lookup sect = some inner ∧ IsSectionDump cfg sect inner ∧
      (∀ s', s' ≠ sect → E'.lookup s' = E.lookup s') := by
  obtain ⟨E', es', hrun, hsect, hkeys, hother⟩ :=
    Config.fillSection_spec cfg sect (cfg.SectionKeys sect) (E.insert sect GoMap.make) ∅
      (AList.lookup_insert _)
  refine ⟨E', GoMap.table es', ?_, hsect, ⟨es', rfl, ?_⟩, ?_⟩
  · simp only [Config.dumpSection, GoMap.assign, bind, Except.bind]
    exact hrun
  · intro k
    rw [hkeys k]
    simp
  · intro s' hs'
    rw [hother s' hs', AList.lookup_insert_ne hs']

theorem Config.dumpLoop_spec (cfg : Config) (secs : List String)
    (E : AList (fun _ : String => GoMap String)) :
    ∃ E', secs.foldlM cfg.dumpSection (GoMap.table E) = .ok (GoMap.table E') ∧
      (∀ s ∈ secs, ∃ inner, E'.lookup s = some inner ∧ IsSectionDump cfg s inner) ∧
      (∀ s, s ∉ secs → E'.lookup s = E.lookup s) := by
  induction secs generalizing E with
  | nil => exact ⟨E, rfl, by simp, fun _ _ => rfl⟩
  | cons a secs ih =>
    obtain ⟨E1, inner, hstep, hsect, hdump, hother⟩ := Config.dumpSection_spec cfg a E
    obtain ⟨E', hrun, hin, hout⟩ := ih E1
    refine ⟨E', ?_, ?_, ?_⟩
    · rw [List.foldlM_cons, hstep]
      exact hrun
    · intro s hs
      by_cases hmem : s ∈ secs
      · exact hin s hmem
      · have hsa : s = a := by
          rcases List.mem_cons.mp hs with h | h
          · exact h
          · exact absurd h hmem
        subst hsa
        exact ⟨inner, by rw [hout s hmem, hsect], hdump⟩
    · intro s hs
      have hsa : s ≠ a := fun h => hs (by simp [h])
      have hmem : s ∉ secs := fun h => hs (List.mem_cons_of_mem _ h)
      rw [hout s hmem, hother s hsa]

theorem AList.eq_empty_of_lookup_none {β : Type} (es : AList (fun _ : String => β))
    (h : ∀ k, es.lookup k = none) : es = ∅ := by
  apply AList.ext
  cases hes : es.entries with
  | nil => rfl
  | cons hd tl =>
    have hmem : hd.1 ∈ es := by
      rw [AList.mem_keys, AList.keys, hes]
      simp
    exact absurd (AList.lookup_eq_none.mp (h hd.1)) (not_not.mpr hmem)

/-- C11: `AsMap()` returns, without panicking, the effective configuration:
`AsMap()[s][k]` is present and equal to `v` if and only if `Get(s,k,d)`
returns `(v, true)`; the sections of the result are exactly the names in
`Sections()`; and a section with no keys in either layer is present as an
empty, allocated map. -/
theorem Config.AsMap_effective (cfg : Config) :
    ∃ m, cfg.AsMap = .ok m ∧
      (∀ s k v d, m.holds s k = some v ↔ cfg.Get s k d = (v, true)) ∧
      (∀ s, s ∈ m.keys ↔ s ∈ cfg.Sections) ∧
      (∀ s, s ∈ cfg.Sections →
        (∀ k, cfg.source.hasKey s k = false ∧ cfg.overrides.hasKey s k = false) →
        m.lookup s = some GoMap.make) := by
  obtain ⟨E', hrun, hin, hout⟩ := Config.dumpLoop_spec cfg cfg.Sections ∅
  refine ⟨GoMap.table E', hrun, ?_, ?_, ?_⟩
  · intro s k v d
    rw [Config.Get_eq_iff]
    by_cases hs : s ∈ cfg.Sections
    · obtain ⟨inner, hl, es, rfl, hes⟩ := hin s hs
      simp only [ConfigMap.holds, GoMap.lookup, hl, Option.some_bind, hes k]
      by_cases hk : k ∈ cfg.SectionKeys s
      · simp [hk]
      · simp [hk]
    · have hl : E'.lookup s = none := by
        rw [hout s hs]
        rfl
      have hk : k ∉ cfg.SectionKeys s :=
        fun hk => hs (Config.mem_Sections_of_mem_SectionKeys cfg s k hk)
      simp [ConfigMap.holds, GoMap.lookup, hl, hk]
  · intro s
    rw [GoMap.mem_keys_iff]
    by_cases hs : s ∈ cfg.Sections
    · obtain ⟨inner, hl, -⟩ := hin s hs
      simp [GoMap.lookup, hl, hs]
    · have hl : E'.lookup s = none := by
        rw [hout s hs]
        rfl
      simp [GoMap.lookup, hl, hs]
  · intro s hs hnone
    obtain ⟨inner, hl, es, rfl, hes⟩ := hin s hs
    have hempty : es = ∅ := by
      apply AList.eq_empty_of_lookup_none
      intro k
      rw [hes k, if_neg]
      rw [Config.mem_SectionKeys_layers]
      simp [(hnone k).1, (hnone k).2]
    subst hempty
    exact hl

/-- C11 at a concrete configuration: the dump of `sampleDumpConfig` shows the
override value of `web.port`, not the source value, and holds the sections
`spare` (no keys) and `ghost` (nil in the override layer) as empty maps. -/
theorem Config.AsMap_effective_witness :
    ∃ m, sampleDumpConfig.AsMap = .ok m ∧ m.holds "web" "port" = some "8080" ∧
      m.holds "web" "port" ≠ some "80" ∧
      m.lookup "spare" = some GoMap.make ∧ m.lookup "ghost" = some GoMap.make :=
  match Config.AsMap_effective sampleDumpConfig with
  | ⟨m, hrun, hholds, _, hempty⟩ =>
    ⟨m, hrun, (hholds "web" "port" "8080" "").mpr (by decide),
      fun h => absurd ((hholds "web" "port" "80" "").mp h) (by decide),
      hempty "spare" (by decide) (fun k => ⟨rfl, rfl⟩),
      hempty "ghost" (by decide) (fun k => ⟨rfl, rfl⟩)⟩

end Gop
